import Mathlib

/-!
GameCircle: a verification development for `Game.cpp`

The program is a single C++ translation unit.  The embedding below follows it
function by function and keeps its names.

Modelling conventions

* `float` and `double` values are exact rationals (`ℚ`): arithmetic is carried
  out without rounding.  `M_PI` is the decimal literal of line 10, which is a
  rational number.  Where the rounding of `float` arithmetic decides a
  property, the definitions whose names end in `Float` refine the exact ones:
  there every `float` operation is rounded to binary32 (`toFloat`) and every
  `double` operation to binary64 (`toDouble`).
* `int` values are mathematical integers (`Int`); `/` and `%` on them are the
  truncating `Int.tdiv` and `Int.tmod` of C++.  `static_cast<int>` of a
  floating value truncates toward zero.
* `uint32_t` colours are natural numbers.
* `std::vector` is `List`; `erase(remove_if(...))` is `List.filter` on the
  negated predicate, which keeps the relative order of the survivors.
* Everything that comes from `Engine.h` or from the C library and is not
  defined in `Game.cpp` is a field of `Host`: the screen dimensions, the key
  code of the space bar, `RAND_MAX`, the sequence of values that successive
  `rand()` calls return, and the functions `cos`, `sin` and `atan2`.
* The process-wide state that the methods of `Game` read and write is carried
  in the `Game` record next to the C++ members: the number of `rand()` calls
  made so far, the `static` local `colorIndex` of `changeBackgroundColor`, and
  the host frame buffer that `Game::update` draws the score into.
-/

namespace GameCircle

/-! ## Host environment and numeric helpers -/

/-- What `Game.cpp` takes from `Engine.h` and from the C library. -/
structure Host where
  /-- Width of the frame buffer in pixels. -/
  SCREEN_WIDTH : Int
  /-- Height of the frame buffer in pixels. -/
  SCREEN_HEIGHT : Int
  /-- Key code of the space bar. -/
  VK_SPACE : Int
  /-- Largest value `rand()` can return. -/
  RAND_MAX : Nat
  /-- The value returned by the `n`-th call of `rand()` (counting from 0). -/
  rand : Nat → Nat
  /-- Library cosine. -/
  cos : ℚ → ℚ
  /-- Library sine. -/
  sin : ℚ → ℚ
  /-- Library two-argument arctangent. -/
  atan2 : ℚ → ℚ → ℚ

/-- The macro `M_PI` (line 10): the decimal literal `3.14159265358979323846`. -/
def M_PI : ℚ := 314159265358979323846 / 100000000000000000000

/-- Conversion `static_cast<int>(v)` of a floating value: truncation toward zero. -/
def toInt (q : ℚ) : Int := Int.tdiv q.num q.den

/-- The comparison `hypot(a, b) < c` for integer arguments: the Euclidean
length of `(a, b)` is below `c`.  Decided in integer arithmetic, since the
length itself is in general irrational. -/
def hypotLt (a b c : Int) : Bool := decide (0 < c ∧ a * a + b * b < c * c)

/-- The integers `lo, lo+1, ..., hi`, the values a loop
`for (int v = lo; v <= hi; v++)` runs through. -/
def intRange (lo hi : Int) : List Int :=
  (List.range (hi - lo + 1).toNat).map (fun i => lo + (i : Int))

/-- The frame buffer: a colour for every index. -/
abbrev Buffer := Int → Nat

/-- The assignment `buffer[i] = color`. -/
def Buffer.write (buffer : Buffer) (i : Int) (color : Nat) : Buffer :=
  fun j => if j = i then color else buffer j

/-! ## Drawing primitives (lines 15-72) -/

/-- Function `drawCircle` (lines 15-27). -/
def drawCircle (h : Host) (buffer : Buffer) (cx cy radius : Int) (color : Nat) : Buffer :=
  (intRange (-radius) radius).foldl (fun buf y =>
    (intRange (-radius) radius).foldl (fun buf x =>
      if x * x + y * y ≤ radius * radius then
        let px := cx + x
        let py := cy + y
        if px ≥ 0 ∧ px < h.SCREEN_WIDTH ∧ py ≥ 0 ∧ py < h.SCREEN_HEIGHT then
          buf.write (py * h.SCREEN_WIDTH + px) color
        else buf
      else buf) buf) buffer

/-- Function `drawSquare` (lines 29-39). -/
def drawSquare (h : Host) (buffer : Buffer) (cx cy halfSize : Int) (color : Nat) : Buffer :=
  (intRange (-halfSize) halfSize).foldl (fun buf y =>
    (intRange (-halfSize) halfSize).foldl (fun buf x =>
      let px := cx + x
      let py := cy + y
      if px ≥ 0 ∧ px < h.SCREEN_WIDTH ∧ py ≥ 0 ∧ py < h.SCREEN_HEIGHT then
        buf.write (py * h.SCREEN_WIDTH + px) color
      else buf) buf) buffer

/-- The table `font` of `drawDigit` (lines 42-53). -/
def font : List (List (List Nat)) :=
  [ [ [1, 1, 1], [1, 0, 1], [1, 0, 1], [1, 0, 1], [1, 1, 1] ],
    [ [0, 1, 0], [1, 1, 0], [0, 1, 0], [0, 1, 0], [1, 1, 1] ],
    [ [1, 1, 1], [0, 0, 1], [1, 1, 1], [1, 0, 0], [1, 1, 1] ],
    [ [1, 1, 1], [0, 0, 1], [1, 1, 1], [0, 0, 1], [1, 1, 1] ],
    [ [1, 0, 1], [1, 0, 1], [1, 1, 1], [0, 0, 1], [0, 0, 1] ],
    [ [1, 1, 1], [1, 0, 0], [1, 1, 1], [0, 0, 1], [1, 1, 1] ],
    [ [1, 1, 1], [1, 0, 0], [1, 1, 1], [1, 0, 1], [1, 1, 1] ],
    [ [1, 1, 1], [0, 0, 1], [0, 1, 0], [1, 0, 0], [1, 0, 0] ],
    [ [1, 1, 1], [1, 0, 1], [1, 1, 1], [1, 0, 1], [1, 1, 1] ],
    [ [1, 1, 1], [1, 0, 1], [1, 1, 1], [0, 0, 1], [1, 1, 1] ] ]

/-- The table lookup `font[d][i][j]`; outside the table the C++ read is
undefined and the model reads 0. -/
def fontAt (d : Int) (i j : Nat) : Nat :=
  if 0 ≤ d then (((font.getD d.toNat []).getD i []).getD j 0) else 0

/-- Function `drawDigit` (lines 41-63). -/
def drawDigit (h : Host) (buffer : Buffer) (x y : Int) (digit : Char) (scale : Int)
    (color : Nat) : Buffer :=
  let d : Int := (digit.toNat : Int) - (('0' : Char).toNat : Int)
  (List.range 5).foldl (fun buf i =>
    (List.range 3).foldl (fun buf j =>
      if fontAt d i j ≠ 0 then
        drawSquare h buf (x + (j : Int) * scale) (y + (i : Int) * scale) (Int.tdiv scale 2) color
      else buf) buf) buffer

/-- Function `drawText` (lines 65-72); the text is given by its characters.
The pair carried through the loop is the buffer and the running `x`. -/
def drawText (h : Host) (buffer : Buffer) (x y : Int) (text : List Char) (scale : Int)
    (color : Nat) : Buffer :=
  (text.foldl (fun (st : Buffer × Int) c =>
    let buf := if '0' ≤ c ∧ c ≤ '9' then drawDigit h st.1 st.2 y c scale color else st.1
    (buf, st.2 + 4 * scale)) (buffer, x)).1

/-! ## Particle (lines 81-115) -/

/-- Class `Particle` with the `x`, `y` inherited from `GameObject`. -/
structure Particle where
  x : ℚ
  y : ℚ
  dx : ℚ
  dy : ℚ
  lifetime : ℚ
  maxLifetime : ℚ
  initialSize : Int
  color : Nat
deriving DecidableEq

/-- Constructor `Particle::Particle` (lines 89-98). -/
def Particle.init (startX startY startDX startDY startLifetime : ℚ) (startSize : Int)
    (color : Nat) : Particle :=
  { x := startX, y := startY, dx := startDX, dy := startDY,
    lifetime := startLifetime, maxLifetime := startLifetime,
    initialSize := startSize, color := color }

/-- Method `Particle::update` (lines 100-104). -/
def Particle.update (p : Particle) (dt : ℚ) : Particle :=
  { p with x := p.x + p.dx * dt, y := p.y + p.dy * dt, lifetime := p.lifetime - dt }

/-- Method `Particle::render` (lines 106-114). -/
def Particle.render (h : Host) (p : Particle) (buffer : Buffer) : Buffer :=
  if p.lifetime > 0 then
    let lifeRatio := p.lifetime / p.maxLifetime
    let currentSize := toInt ((p.initialSize : ℚ) * lifeRatio)
    if currentSize > 0 then
      drawCircle h buffer (toInt p.x) (toInt p.y) currentSize p.color
    else buffer
  else buffer

/-- The loop `for (auto& particle : particles) particle.update(dt)` followed by
`erase(remove_if(..., lifetime <= 0))`, as it occurs in `Player::update`
(lines 148-153) and in `Game::updateParticles` (lines 392-397). -/
def advanceParticles (ps : List Particle) (dt : ℚ) : List Particle :=
  (ps.map (fun p => p.update dt)).filter (fun p => !decide (p.lifetime ≤ 0))

/-! ## Player (lines 117-213) -/

/-- Class `Player` with the `x`, `y` inherited from `GameObject`. -/
structure Player where
  x : ℚ
  y : ℚ
  angle : ℚ
  rotateClockwise : Bool
  particles : List Particle
deriving DecidableEq

/-- Constructor `Player::Player` (lines 123-128); the trail vector starts empty. -/
def Player.init (startX startY : Int) : Player :=
  { x := (startX : ℚ), y := (startY : ℚ), angle := 0, rotateClockwise := true,
    particles := [] }

/-- The angle part of `Player::update` (lines 131-134): advance, then the two
conditional corrections. -/
def Player.nextAngle (angle : ℚ) (rotateClockwise : Bool) (dt : ℚ) : ℚ :=
  let rotationSpeed : ℚ := 2 * M_PI / 2
  let a0 := angle + (if rotateClockwise then rotationSpeed else -rotationSpeed) * dt
  let a1 := if a0 > 2 * M_PI then a0 - 2 * M_PI else a0
  if a1 < 0 then a1 + 2 * M_PI else a1

/-- Method `Player::getPosition` (lines 197-212). -/
def Player.getPosition (h : Host) (p : Player) (sphereNumber : Int) : Int × Int :=
  let radius : Int := 100
  let centerX := Int.tdiv h.SCREEN_WIDTH 2
  let centerY := Int.tdiv h.SCREEN_HEIGHT 2
  if sphereNumber = 1 then
    (centerX + toInt ((radius : ℚ) * h.cos p.angle),
     centerY + toInt ((radius : ℚ) * h.sin p.angle))
  else
    (centerX + toInt ((radius : ℚ) * h.cos (p.angle + M_PI)),
     centerY + toInt ((radius : ℚ) * h.sin (p.angle + M_PI)))

/-- Method `Player::update` (lines 130-154). -/
def Player.update (h : Host) (p : Player) (dt : ℚ) : Player :=
  let angle := Player.nextAngle p.angle p.rotateClockwise dt
  let radius : Int := 100
  let centerX := Int.tdiv h.SCREEN_WIDTH 2
  let centerY := Int.tdiv h.SCREEN_HEIGHT 2
  let sphere1X := centerX + toInt ((radius : ℚ) * h.cos angle)
  let sphere1Y := centerY + toInt ((radius : ℚ) * h.sin angle)
  let sphere2X := centerX + toInt ((radius : ℚ) * h.cos (angle + M_PI))
  let sphere2Y := centerY + toInt ((radius : ℚ) * h.sin (angle + M_PI))
  let particles := p.particles ++
    [Particle.init sphere1X sphere1Y 0 0 (1 / 2) 20 0xFFFFFFFF,
     Particle.init sphere2X sphere2Y 0 0 (1 / 2) 20 0xFFFFFFFF]
  { p with angle := angle, particles := advanceParticles particles dt }

/-- Method `Player::render` (lines 156-176). -/
def Player.render (h : Host) (p : Player) (buffer : Buffer) : Buffer :=
  let radius : Int := 100
  let centerX := Int.tdiv h.SCREEN_WIDTH 2
  let centerY := Int.tdiv h.SCREEN_HEIGHT 2
  let sphereRadius : Int := 20
  let greenColor : Nat := 0xFF3CA741
  let b0 := drawCircle h buffer centerX centerY radius greenColor
  let sphere1X := centerX + toInt ((radius : ℚ) * h.cos p.angle)
  let sphere1Y := centerY + toInt ((radius : ℚ) * h.sin p.angle)
  let sphere2X := centerX + toInt ((radius : ℚ) * h.cos (p.angle + M_PI))
  let sphere2Y := centerY + toInt ((radius : ℚ) * h.sin (p.angle + M_PI))
  let b1 := drawCircle h b0 sphere1X sphere1Y sphereRadius 0xFFFFFFFF
  let b2 := drawCircle h b1 sphere2X sphere2Y sphereRadius 0xFFFFFFFF
  p.particles.foldl (fun buf particle => particle.render h buf) b2

/-- Method `Player::toggleRotation` (lines 178-180). -/
def Player.toggleRotation (p : Player) : Player :=
  { p with rotateClockwise := !p.rotateClockwise }

/-- Method `Player::checkCollision` (lines 182-195). -/
def Player.checkCollision (h : Host) (p : Player) (otherX otherY radius : Int) : Bool :=
  let centerX := Int.tdiv h.SCREEN_WIDTH 2
  let centerY := Int.tdiv h.SCREEN_HEIGHT 2
  let orbitRadius : Int := 100
  let sphereRadius : Int := 20
  let sphere1X := centerX + toInt ((orbitRadius : ℚ) * h.cos p.angle)
  let sphere1Y := centerY + toInt ((orbitRadius : ℚ) * h.sin p.angle)
  let sphere2X := centerX + toInt ((orbitRadius : ℚ) * h.cos (p.angle + M_PI))
  let sphere2Y := centerY + toInt ((orbitRadius : ℚ) * h.sin (p.angle + M_PI))
  hypotLt (sphere1X - otherX) (sphere1Y - otherY) (sphereRadius + radius) ||
    hypotLt (sphere2X - otherX) (sphere2Y - otherY) (sphereRadius + radius)

/-! ## Enemy and Bonus (lines 215-297) -/

/-- Class `Enemy` with the `x`, `y` inherited from `GameObject`. -/
structure Enemy where
  x : ℚ
  y : ℚ
  dx : ℚ
  dy : ℚ
  speed : ℚ
  targetX : ℚ
  targetY : ℚ
deriving DecidableEq

/-- Constructor `Enemy::Enemy` (lines 221-230). -/
def Enemy.init (h : Host) (startX startY : Int) (targetX targetY : ℚ) : Enemy :=
  let x : ℚ := startX
  let y : ℚ := startY
  let angle := h.atan2 (targetY - y) (targetX - x)
  { x := x, y := y, dx := h.cos angle, dy := h.sin angle, speed := 100,
    targetX := targetX, targetY := targetY }

/-- Method `Enemy::update` (lines 232-238). -/
def Enemy.update (h : Host) (e : Enemy) (dt : ℚ) : Enemy :=
  let x := e.x + e.dx * e.speed * dt
  let y := e.y + e.dy * e.speed * dt
  if x < 0 ∨ x ≥ (h.SCREEN_WIDTH : ℚ) ∨ y < 0 ∨ y ≥ (h.SCREEN_HEIGHT : ℚ) then
    { e with x := -1, y := y }
  else
    { e with x := x, y := y }

/-- Method `Enemy::render` (lines 240-246). -/
def Enemy.render (h : Host) (e : Enemy) (buffer : Buffer) : Buffer :=
  let intX := toInt e.x
  let intY := toInt e.y
  if intX ≥ 0 ∧ intX < h.SCREEN_WIDTH ∧ intY ≥ 0 ∧ intY < h.SCREEN_HEIGHT then
    drawSquare h buffer intX intY 10 0xFF000000
  else buffer

/-- The body shared by the explosion loops (lines 250-252, 292-294): two
`rand()` calls give angle and speed, and one particle is appended.  The state
is the particle vector and the number of `rand()` calls made so far. -/
def burstStep (h : Host) (x y : ℚ) (size : Int) (color : Nat)
    (st : List Particle × Nat) : List Particle × Nat :=
  let angle : ℚ := (h.rand st.2 : ℚ) / (h.RAND_MAX : ℚ) * 2 * M_PI
  let speed : ℚ := 50 + (h.rand (st.2 + 1) : ℚ) / (h.RAND_MAX : ℚ) * 100
  (st.1 ++ [Particle.init x y (h.cos angle * speed) (h.sin angle * speed) 1 size color],
   st.2 + 2)

/-- Method `Enemy::explode` (lines 248-254). -/
def Enemy.explode (h : Host) (e : Enemy) (st : List Particle × Nat) : List Particle × Nat :=
  (List.range 20).foldl (fun st _ => burstStep h e.x e.y 10 0xFFFF0000 st) st

/-- Class `Bonus` with the `x`, `y` inherited from `GameObject`. -/
structure Bonus where
  x : ℚ
  y : ℚ
  dx : ℚ
  dy : ℚ
  speed : ℚ
  targetX : ℚ
  targetY : ℚ
deriving DecidableEq

/-- Constructor `Bonus::Bonus` (lines 263-272). -/
def Bonus.init (h : Host) (startX startY : Int) (targetX targetY : ℚ) : Bonus :=
  let x : ℚ := startX
  let y : ℚ := startY
  let angle := h.atan2 (targetY - y) (targetX - x)
  { x := x, y := y, dx := h.cos angle, dy := h.sin angle, speed := 100,
    targetX := targetX, targetY := targetY }

/-- Method `Bonus::update` (lines 274-280). -/
def Bonus.update (h : Host) (b : Bonus) (dt : ℚ) : Bonus :=
  let x := b.x + b.dx * b.speed * dt
  let y := b.y + b.dy * b.speed * dt
  if x < 0 ∨ x ≥ (h.SCREEN_WIDTH : ℚ) ∨ y < 0 ∨ y ≥ (h.SCREEN_HEIGHT : ℚ) then
    { b with x := -1, y := y }
  else
    { b with x := x, y := y }

/-- Method `Bonus::render` (lines 282-288). -/
def Bonus.render (h : Host) (b : Bonus) (buffer : Buffer) : Buffer :=
  let intX := toInt b.x
  let intY := toInt b.y
  if intX ≥ 0 ∧ intX < h.SCREEN_WIDTH ∧ intY ≥ 0 ∧ intY < h.SCREEN_HEIGHT then
    drawCircle h buffer intX intY 10 0xFFFFFF00
  else buffer

/-- Method `Bonus::explode` (lines 290-296). -/
def Bonus.explode (h : Host) (b : Bonus) (st : List Particle × Nat) : List Particle × Nat :=
  (List.range 20).foldl (fun st _ => burstStep h b.x b.y 10 0xFFFFFF00 st) st

/-! ## Game (lines 299-514) -/

/-- Class `Game`, followed by the process-wide state its methods use:
`randCount` is the number of `rand()` calls made so far, `colorIndex` the
`static` local of `changeBackgroundColor` (line 509), and `buffer` the host
frame buffer that `update` writes the score into (line 381). -/
structure Game where
  player : Player
  enemies : List Enemy
  bonuses : List Bonus
  particles : List Particle
  score : Int
  spacePressed : Bool
  isGameOver : Bool
  isExplosionAnimation : Bool
  backgroundColor : Nat
  randCount : Nat
  colorIndex : Nat
  buffer : Buffer

/-- The palette `colors` of `changeBackgroundColor` (lines 502-508). -/
def colors : List Nat := [0xFF0C486C, 0xFF3B8787, 0xFF7ABD9A, 0xFFA9DBA8, 0xFFCFF09F]

/-- Method `Game::addEnemy` (lines 422-443).  The four `rand()` calls are, in
program order, those for `side`, `angle`, `radius` and the coordinate along
the chosen edge. -/
def Game.addEnemy (h : Host) (g : Game) : Game :=
  let side : Int := Int.tmod (h.rand g.randCount : Int) 2
  let centerX := Int.tdiv h.SCREEN_WIDTH 2
  let centerY := Int.tdiv h.SCREEN_HEIGHT 2
  let angle : ℚ := (h.rand (g.randCount + 1) : ℚ) / (h.RAND_MAX : ℚ) * 2 * M_PI
  let radius : ℚ := (h.rand (g.randCount + 2) : ℚ) / (h.RAND_MAX : ℚ) * 100
  let targetX : ℚ := (centerX : ℚ) + radius * h.cos angle
  let targetY : ℚ := (centerY : ℚ) + radius * h.sin angle
  let start : Int × Int :=
    if side = 0 then
      (Int.tmod (h.rand (g.randCount + 3) : Int) h.SCREEN_WIDTH, h.SCREEN_HEIGHT - 1)
    else
      (h.SCREEN_WIDTH - 1, Int.tmod (h.rand (g.randCount + 3) : Int) h.SCREEN_HEIGHT)
  { g with
    enemies := g.enemies ++ [Enemy.init h start.1 start.2 targetX targetY],
    randCount := g.randCount + 4 }

/-- Method `Game::addBonus` (lines 445-466), with the same order of `rand()`
calls as `addEnemy`. -/
def Game.addBonus (h : Host) (g : Game) : Game :=
  let side : Int := Int.tmod (h.rand g.randCount : Int) 2
  let centerX := Int.tdiv h.SCREEN_WIDTH 2
  let centerY := Int.tdiv h.SCREEN_HEIGHT 2
  let angle : ℚ := (h.rand (g.randCount + 1) : ℚ) / (h.RAND_MAX : ℚ) * 2 * M_PI
  let radius : ℚ := (h.rand (g.randCount + 2) : ℚ) / (h.RAND_MAX : ℚ) * 100
  let targetX : ℚ := (centerX : ℚ) + radius * h.cos angle
  let targetY : ℚ := (centerY : ℚ) + radius * h.sin angle
  let start : Int × Int :=
    if side = 0 then
      (Int.tmod (h.rand (g.randCount + 3) : Int) h.SCREEN_WIDTH, h.SCREEN_HEIGHT - 1)
    else
      (h.SCREEN_WIDTH - 1, Int.tmod (h.rand (g.randCount + 3) : Int) h.SCREEN_HEIGHT)
  { g with
    bonuses := g.bonuses ++ [Bonus.init h start.1 start.2 targetX targetY],
    randCount := g.randCount + 4 }

/-- Constructor `Game::Game` (lines 312-316), run in a process that has made
`randCount` calls of `rand()` and whose palette index and frame buffer are as
given. -/
def Game.init (h : Host) (randCount colorIndex : Nat) (buffer : Buffer) : Game :=
  let g : Game :=
    { player := Player.init (Int.tdiv h.SCREEN_WIDTH 2) (Int.tdiv h.SCREEN_HEIGHT 2),
      enemies := [], bonuses := [], particles := [],
      score := 0, spacePressed := false, isGameOver := false,
      isExplosionAnimation := false, backgroundColor := 0xFF324961,
      randCount := randCount, colorIndex := colorIndex, buffer := buffer }
  (g.addEnemy h).addBonus h

/-- Method `Game::updateParticles` (lines 391-398). -/
def Game.updateParticles (g : Game) (dt : ℚ) : Game :=
  { g with particles := advanceParticles g.particles dt }

/-- The body of the loop of `Game::explodePlayer` (lines 478-481): one angle
and one speed, used for a particle at each sphere. -/
def explodePlayerStep (h : Host) (pos1 pos2 : Int × Int)
    (st : List Particle × Nat) : List Particle × Nat :=
  let angle : ℚ := (h.rand st.2 : ℚ) / (h.RAND_MAX : ℚ) * 2 * M_PI
  let speed : ℚ := 50 + (h.rand (st.2 + 1) : ℚ) / (h.RAND_MAX : ℚ) * 100
  (st.1 ++
    [Particle.init pos1.1 pos1.2 (h.cos angle * speed) (h.sin angle * speed) 1 20 0xFFFFFFFF,
     Particle.init pos2.1 pos2.2 (h.cos angle * speed) (h.sin angle * speed) 1 20 0xFFFFFFFF],
   st.2 + 2)

/-- Method `Game::explodePlayer` (lines 468-483). -/
def Game.explodePlayer (h : Host) (g : Game) : Game :=
  let pos1 := g.player.getPosition h 1
  let pos2 := g.player.getPosition h 2
  let st := (List.range 50).foldl (fun st _ => explodePlayerStep h pos1 pos2 st)
    (g.particles, g.randCount)
  { g with particles := st.1, randCount := st.2 }

/-- Method `Game::clearEnemiesAndPlayer` (lines 485-488). -/
def Game.clearEnemiesAndPlayer (g : Game) : Game :=
  { g with enemies := [], player := { g.player with particles := [] } }

/-- Method `Game::resetGame` (lines 490-499). -/
def Game.resetGame (h : Host) (g : Game) : Game :=
  let g1 : Game :=
    { g with enemies := [], bonuses := [], particles := [], score := 0,
             isGameOver := false, backgroundColor := 0xFF808080 }
  (g1.addEnemy h).addBonus h

/-- Method `Game::changeBackgroundColor` (lines 501-513).  A read outside the
palette is undefined in C++; the model reads 0 there. -/
def Game.changeBackgroundColor (g : Game) : Game :=
  { g with backgroundColor := colors.getD g.colorIndex 0,
           colorIndex := (g.colorIndex + 1) % colors.length }

/-- Method `Game::handleInput` (lines 318-332); `isKeyPressed` is what the
host function `is_key_pressed` answers during this call, and `'R'` is key
code 82. -/
def Game.handleInput (h : Host) (g : Game) (isKeyPressed : Int → Bool) : Game :=
  let g1 : Game :=
    if isKeyPressed h.VK_SPACE then
      if !g.spacePressed then
        { g with player := g.player.toggleRotation, spacePressed := true }
      else g
    else { g with spacePressed := false }
  if isKeyPressed (('R' : Char).toNat : Int) && g1.isGameOver && !g1.isExplosionAnimation then
    g1.resetGame h
  else g1

/-- The enemy loop of `Game::update` (lines 347-357) over the not yet visited
part of the vector.  The result is the vector as the loop leaves it and, when
the loop was left through the `return` of line 355, the enemy that hit the
player. -/
def enemyLoop (h : Host) (player : Player) (dt : ℚ) : List Enemy → List Enemy × Option Enemy
  | [] => ([], none)
  | e :: rest =>
    let e1 := e.update h dt
    if player.checkCollision h (toInt e1.x) (toInt e1.y) 10 then
      (e1 :: rest, some e1)
    else
      let r := enemyLoop h player dt rest
      (e1 :: r.1, r.2)

/-- The statements executed when a bonus overlaps the player (lines 365-372),
apart from `bonus.x = -1`: they change the game, not the bonus.  `b` is the
bonus after its `update`. -/
def Game.pickup (h : Host) (g : Game) (b : Bonus) : Game :=
  let g1 : Game := { g with score := g.score + 1 }
  let st := b.explode h (g1.particles, g1.randCount)
  let g2 : Game := { g1 with particles := st.1, randCount := st.2 }
  if Int.tmod g2.score 5 = 0 then g2.changeBackgroundColor else g2

/-- The bonus loop of `Game::update` (lines 362-374) over the not yet visited
part of the vector: the game after the loop and the vector as the loop
leaves it. -/
def bonusLoop (h : Host) (dt : ℚ) : Game → List Bonus → Game × List Bonus
  | g, [] => (g, [])
  | g, b :: rest =>
    let b1 := b.update h dt
    if g.player.checkCollision h (toInt b1.x) (toInt b1.y) 10 then
      let r := bonusLoop h dt (g.pickup h b1) rest
      (r.1, { b1 with x := -1 } :: r.2)
    else
      let r := bonusLoop h dt g rest
      (r.1, b1 :: r.2)

/-- The comparison `enemies.size() < (score / 5) + 1` of line 386: the `int`
on the right is converted to the unsigned 64-bit `size_t`. -/
def sizeLtInt (size : Nat) (v : Int) : Bool := decide ((size : Int) < v % 2 ^ 64)

/-- Method `Game::update` (lines 334-389). -/
def Game.update (h : Host) (g : Game) (dt : ℚ) : Game :=
  if g.isGameOver && !g.isExplosionAnimation then g
  else if g.isExplosionAnimation then
    let g1 := g.updateParticles dt
    if g1.particles.isEmpty then { g1 with isExplosionAnimation := false } else g1
  else
    let g1 : Game := { g with player := g.player.update h dt }
    let r := enemyLoop h g1.player dt g1.enemies
    match r.2 with
    | some enemy =>
      let st := enemy.explode h (g1.particles, g1.randCount)
      let g2 : Game :=
        { g1 with enemies := r.1, particles := st.1, randCount := st.2,
                  isGameOver := true, isExplosionAnimation := true }
      (g2.explodePlayer h).clearEnemiesAndPlayer
    | none =>
      let g2 : Game := { g1 with enemies := r.1.filter (fun e => !decide (e.x = -1)) }
      let rb := bonusLoop h dt g2 g2.bonuses
      let g3 : Game := { rb.1 with bonuses := rb.2.filter (fun b => !decide (b.x = -1)) }
      let g4 := g3.updateParticles dt
      let g5 : Game :=
        { g4 with buffer := drawText h g4.buffer 30 30 (toString g4.score).toList 20 0xFFFFFFFF }
      let g6 := if g5.bonuses.length < 1 then g5.addBonus h else g5
      if sizeLtInt g6.enemies.length (Int.tdiv g6.score 5 + 1) then g6.addEnemy h else g6

/-- Method `Game::render` (lines 400-420), for a frame buffer given as argument. -/
def Game.render (h : Host) (g : Game) (buffer : Buffer) : Buffer :=
  let b0 := (intRange 0 (h.SCREEN_HEIGHT - 1)).foldl (fun buf i =>
    (intRange 0 (h.SCREEN_WIDTH - 1)).foldl (fun buf j =>
      buf.write (i * h.SCREEN_WIDTH + j) g.backgroundColor) buf) buffer
  let b1 := if !g.isExplosionAnimation then g.player.render h b0 else b0
  let b2 := g.enemies.foldl (fun buf enemy => enemy.render h buf) b1
  let b3 := g.bonuses.foldl (fun buf bonus => bonus.render h buf) b2
  let b4 := g.particles.foldl (fun buf particle => particle.render h buf) b3
  drawText h b4 30 30 (toString g.score).toList 20 0xFFFFFFFF

/-! ## The two halves of a tick without collision, named for the proofs -/

/-- The game after the bonus loop and the two prunings of a tick in which no
enemy hit the player (lines 358-377). -/
def Game.afterLoops (h : Host) (g : Game) (dt : ℚ) : Game :=
  let g2 : Game :=
    { g with player := g.player.update h dt,
             enemies := ((enemyLoop h (g.player.update h dt) dt g.enemies).1).filter
               (fun e => !decide (e.x = -1)) }
  let rb := bonusLoop h dt g2 g2.bonuses
  { rb.1 with bonuses := rb.2.filter (fun b => !decide (b.x = -1)) }

/-- The rest of such a tick (lines 379-388): particles, score text, spawning. -/
def Game.finishTick (h : Host) (g3 : Game) (dt : ℚ) : Game :=
  let g4 := g3.updateParticles dt
  let g5 : Game :=
    { g4 with buffer := drawText h g4.buffer 30 30 (toString g4.score).toList 20 0xFFFFFFFF }
  let g6 := if g5.bonuses.length < 1 then g5.addBonus h else g5
  if sizeLtInt g6.enemies.length (Int.tdiv g6.score 5 + 1) then g6.addEnemy h else g6

/-! ## Notions used to state the properties -/

/-- The enemy lies in the visible rectangle `[0, SCREEN_WIDTH) x [0, SCREEN_HEIGHT)`. -/
def Enemy.onScreen (h : Host) (e : Enemy) : Prop :=
  0 ≤ e.x ∧ e.x < (h.SCREEN_WIDTH : ℚ) ∧ 0 ≤ e.y ∧ e.y < (h.SCREEN_HEIGHT : ℚ)

/-- The bonus lies in the visible rectangle. -/
def Bonus.onScreen (h : Host) (b : Bonus) : Prop :=
  0 ≤ b.x ∧ b.x < (h.SCREEN_WIDTH : ℚ) ∧ 0 ≤ b.y ∧ b.y < (h.SCREEN_HEIGHT : ℚ)

/-- Every enemy and every bonus in the collections lies in the visible rectangle. -/
def Game.allOnScreen (h : Host) (g : Game) : Prop :=
  (∀ e ∈ g.enemies, e.onScreen h) ∧ (∀ b ∈ g.bonuses, b.onScreen h)

/-- The states a run of the program passes through: the constructed game, and
from there any interleaving of `handleInput` (with any key states) and `update`
(with any `dt`). -/
inductive Reachable (h : Host) : Game → Prop
  | init (randCount colorIndex : Nat) (buffer : Buffer) :
      Reachable h (Game.init h randCount colorIndex buffer)
  | handleInput {g : Game} (isKeyPressed : Int → Bool) :
      Reachable h g → Reachable h (g.handleInput h isKeyPressed)
  | update {g : Game} (dt : ℚ) : Reachable h g → Reachable h (g.update h dt)

/-! ## A concrete host, for evaluating the model -/

/-- A host with a 1024 x 768 screen, a linear congruential `rand`, and
stand-ins for the library functions that are exact at the two angles `0` and
`M_PI` and vanish elsewhere. -/
def demoHost : Host :=
  { SCREEN_WIDTH := 1024, SCREEN_HEIGHT := 768, VK_SPACE := 32, RAND_MAX := 32767,
    rand := fun n => (n * 1103 + 12345) % 32768,
    cos := fun a => if a = 0 then 1 else if a = M_PI then -1 else 0,
    sin := fun _ => 0,
    atan2 := fun _ _ => M_PI }

/-- The game that the constructor builds on `demoHost` at program start. -/
def demoGame : Game := Game.init demoHost 0 0 (fun _ => 0)

/-- An enemy resting on sphere 1 of a player at angle 0 on `demoHost`: the
point `(centerX + 100, centerY) = (612, 384)`. -/
def demoEnemy : Enemy :=
  { x := 612, y := 384, dx := 0, dy := 0, speed := 100, targetX := 512, targetY := 384 }

/-- The fresh game with `demoEnemy` as its only enemy; the shared particle
list is empty. -/
def deathGame : Game := { demoGame with enemies := [demoEnemy] }

/-- The fresh game in the static game-over state: `isGameOver` set, no
animation running. -/
def overGame : Game := { demoGame with isGameOver := true }

/-- Keyboard state in which only the key `'R'` (code 82) is pressed. -/
def onlyR : Int → Bool := fun c => decide (c = 82)

/-- The radius computed by `Particle::render` (lines 108-109). -/
def Particle.currentSize (p : Particle) : Int :=
  toInt ((p.initialSize : ℚ) * (p.lifetime / p.maxLifetime))

/-- The relations between flags, score and collection sizes that every state
of a run satisfies: an animation only runs when the game is over, the score is
not negative, there is at most one bonus, and there are at most
`score / 5 + 1` enemies. -/
def Game.consistent (g : Game) : Prop :=
  (g.isExplosionAnimation = true → g.isGameOver = true) ∧ 0 ≤ g.score ∧
    g.bonuses.length ≤ 1 ∧ (g.enemies.length : Int) ≤ g.score / 5 + 1

/-- The index `i` addresses a pixel of the frame buffer: it is
`py * SCREEN_WIDTH + px` for a column `px` and a row `py` inside the screen. -/
def isPixelIndex (h : Host) (i : Int) : Prop :=
  ∃ px py : Int, 0 ≤ px ∧ px < h.SCREEN_WIDTH ∧ 0 ≤ py ∧ py < h.SCREEN_HEIGHT ∧
    i = py * h.SCREEN_WIDTH + px

/-- The buffer `after` differs from `before` only at pixel indices, and there
it holds `color`. -/
def paintsWithin (h : Host) (color : Nat) (before after : Buffer) : Prop :=
  ∀ i : Int, after i ≠ before i → isPixelIndex h i ∧ after i = color

/-- The arguments `(x, digit)` of the successive `drawDigit` calls that
`drawText` makes (lines 66-71) for a text starting at column `x`. -/
def drawTextCalls (x : Int) (scale : Int) : List Char → List (Int × Char)
  | [] => []
  | c :: rest =>
    (if '0' ≤ c ∧ c ≤ '9' then [(x, c)] else []) ++ drawTextCalls (x + 4 * scale) scale rest

/-- A bonus resting on sphere 1 of a player at angle 0 on `demoHost`. -/
def demoBonus : Bonus :=
  { x := 612, y := 384, dx := 0, dy := 0, speed := 100, targetX := 512, targetY := 384 }

/-- A playing state of `demoHost` with score 4, no enemy and `demoBonus` as
its single bonus. -/
def pickupGame : Game := { demoGame with enemies := [], bonuses := [demoBonus], score := 4 }

/-- The state `pickupGame` with the palette index at the last entry, as after
four earlier milestones. -/
def wrapGame : Game := { pickupGame with colorIndex := 4 }

/-! ## Binary floating-point rounding

Properties that depend on the rounding of `float` arithmetic are stated on a
refinement in which every `float` operation is followed by rounding to
IEEE 754 binary32 and every `double` operation by rounding to binary64
(round to nearest, ties to even, gradual underflow).  Overflow to
infinity is not modelled: the values met here stay far below `2 ^ 127`. -/

/-- The power `2 ^ k` as a rational number. -/
def pow2 (k : Int) : ℚ :=
  if 0 ≤ k then ((2 ^ k.toNat : Nat) : ℚ) else 1 / ((2 ^ (-k).toNat : Nat) : ℚ)

/-- Binary logarithm of a natural number, rounded down, with `fuel` halvings
at most. -/
def log2Fuel : Nat → Nat → Nat
  | 0, _ => 0
  | fuel + 1, n => if n < 2 then 0 else log2Fuel fuel (n / 2) + 1

/-- Binary logarithm of a positive natural number, rounded down. -/
def natLog2 (n : Nat) : Nat := log2Fuel n n

/-- The binary exponent of a non-zero rational `q`: the integer `e` with
`2 ^ e ≤ |q| < 2 ^ (e + 1)`. -/
def binExp (q : ℚ) : Int :=
  let e0 : Int := (natLog2 q.num.natAbs : Int) - (natLog2 q.den : Int)
  if pow2 e0 ≤ |q| then e0 else e0 - 1

/-- The integer nearest to `r`; a tie goes to the even neighbour. -/
def roundEven (r : ℚ) : Int :=
  if r - (⌊r⌋ : ℚ) < 1 / 2 then ⌊r⌋
  else if 1 / 2 < r - (⌊r⌋ : ℚ) then ⌊r⌋ + 1
  else if ⌊r⌋ % 2 = 0 then ⌊r⌋ else ⌊r⌋ + 1

/-- Rounding of `q` to the binary format with `p` significand bits and least
normal exponent `emin`: `q` is rounded to the nearest multiple of
`2 ^ (max e emin - (p - 1))`, where `e` is its binary exponent. -/
def roundBinary (p : Nat) (emin : Int) (q : ℚ) : ℚ :=
  if q = 0 then 0
  else (roundEven (q / pow2 (max (binExp q) emin - ((p : Int) - 1))) : ℚ) *
    pow2 (max (binExp q) emin - ((p : Int) - 1))

/-- The value of type `float` (binary32) nearest to `q`. -/
def toFloat (q : ℚ) : ℚ := roundBinary 24 (-126) q

/-- The value of type `double` (binary64) nearest to `q`. -/
def toDouble (q : ℚ) : ℚ := roundBinary 53 (-1022) q

/-- The angle computed by lines 131-134 of `Player::update` in floating-point
arithmetic: `rotationSpeed`, `angle` and `dt` are `float`, while `M_PI` is a
`double`, so the products and sums with `M_PI` are formed in `double` and
rounded to `float` when stored. -/
def Player.nextAngleFloat (angle : ℚ) (rotateClockwise : Bool) (dt : ℚ) : ℚ :=
  let rotationSpeed : ℚ := toFloat (toDouble (toDouble (2 * toDouble M_PI) / 2))
  let a0 := toFloat (angle +
    toFloat ((if rotateClockwise then rotationSpeed else -rotationSpeed) * dt))
  let a1 := if a0 > toDouble (2 * toDouble M_PI) then
    toFloat (toDouble (a0 - toDouble (2 * toDouble M_PI))) else a0
  if a1 < 0 then toFloat (toDouble (a1 + toDouble (2 * toDouble M_PI))) else a1

/-- Method `Particle::update` (lines 100-104) in `float` arithmetic: every
product, sum and difference is rounded to `float`. -/
def Particle.updateFloat (p : Particle) (dt : ℚ) : Particle :=
  { p with x := toFloat (p.x + toFloat (p.dx * dt)),
           y := toFloat (p.y + toFloat (p.dy * dt)),
           lifetime := toFloat (p.lifetime - dt) }

/-- The update-and-prune loop of lines 392-397 in `float` arithmetic. -/
def advanceParticlesFloat (ps : List Particle) (dt : ℚ) : List Particle :=
  (ps.map (fun p => p.updateFloat dt)).filter (fun p => !decide (p.lifetime ≤ 0))

/-- Method `Game::update` in `float` arithmetic for a game that is over
(lines 335-343): the static branch returns at once and the animation branch
advances the shared particles.  The branch of a playing game (lines 345-388)
is not part of this refinement; the result is `none` there. -/
def Game.updateFloat (g : Game) (dt : ℚ) : Option Game :=
  if g.isGameOver && !g.isExplosionAnimation then some g
  else if g.isExplosionAnimation then
    let g1 : Game := { g with particles := advanceParticlesFloat g.particles dt }
    some (if g1.particles.isEmpty then { g1 with isExplosionAnimation := false } else g1)
  else none

/-- Successive `Game::update` calls in `float` arithmetic, one for each `dt`
of the list. -/
def Game.runFloat (g : Game) : List ℚ → Option Game
  | [] => some g
  | dt :: rest =>
    match g.updateFloat dt with
    | some g1 => g1.runFloat rest
    | none => none

theorem M_PI_pos : (0 : ℚ) < M_PI := by
  unfold M_PI; norm_num

/-! ## Collision test -/

@[simp] theorem Game.addEnemy_frame (h : Host) (g : Game) :
    (g.addEnemy h).player = g.player ∧ (g.addEnemy h).bonuses = g.bonuses ∧
    (g.addEnemy h).particles = g.particles ∧ (g.addEnemy h).score = g.score ∧
    (g.addEnemy h).spacePressed = g.spacePressed ∧ (g.addEnemy h).isGameOver = g.isGameOver ∧
    (g.addEnemy h).isExplosionAnimation = g.isExplosionAnimation ∧
    (g.addEnemy h).backgroundColor = g.backgroundColor ∧
    (g.addEnemy h).colorIndex = g.colorIndex ∧ (g.addEnemy h).buffer = g.buffer ∧
    (g.addEnemy h).randCount = g.randCount + 4 ∧
    (g.addEnemy h).enemies.length = g.enemies.length + 1 := by
  simp [Game.addEnemy]

@[simp] theorem Game.addBonus_frame (h : Host) (g : Game) :
    (g.addBonus h).player = g.player ∧ (g.addBonus h).enemies = g.enemies ∧
    (g.addBonus h).particles = g.particles ∧ (g.addBonus h).score = g.score ∧
    (g.addBonus h).spacePressed = g.spacePressed ∧ (g.addBonus h).isGameOver = g.isGameOver ∧
    (g.addBonus h).isExplosionAnimation = g.isExplosionAnimation ∧
    (g.addBonus h).backgroundColor = g.backgroundColor ∧
    (g.addBonus h).colorIndex = g.colorIndex ∧ (g.addBonus h).buffer = g.buffer ∧
    (g.addBonus h).randCount = g.randCount + 4 ∧
    (g.addBonus h).bonuses.length = g.bonuses.length + 1 := by
  simp [Game.addBonus]

/-- What `resetGame` leaves and what it sets. -/
theorem Game.resetGame_fields (h : Host) (g : Game) :
    (g.resetGame h).player = g.player ∧ (g.resetGame h).spacePressed = g.spacePressed ∧
    (g.resetGame h).isExplosionAnimation = g.isExplosionAnimation ∧
    (g.resetGame h).colorIndex = g.colorIndex ∧ (g.resetGame h).buffer = g.buffer ∧
    (g.resetGame h).score = 0 ∧ (g.resetGame h).isGameOver = false ∧
    (g.resetGame h).backgroundColor = 0xFF808080 ∧ (g.resetGame h).particles = [] ∧
    (g.resetGame h).enemies.length = 1 ∧ (g.resetGame h).bonuses.length = 1 ∧
    (g.resetGame h).randCount = g.randCount + 8 := by
  simp [Game.resetGame, Game.addEnemy, Game.addBonus]

/-- Effect of one `handleInput` call on the rotation direction and on the
debounce flag. -/
theorem Game.handleInput_rotation (h : Host) (g : Game) (k : Int → Bool) :
    (g.handleInput h k).player.rotateClockwise =
        (if k h.VK_SPACE = true ∧ g.spacePressed = false then !g.player.rotateClockwise
         else g.player.rotateClockwise) ∧
      (g.handleInput h k).spacePressed = k h.VK_SPACE := by
  have hp : ∀ g : Game, (g.resetGame h).player = g.player :=
    fun g => (Game.resetGame_fields h g).1
  have hs : ∀ g : Game, (g.resetGame h).spacePressed = g.spacePressed :=
    fun g => (Game.resetGame_fields h g).2.1
  unfold Game.handleInput
  cases hk : k h.VK_SPACE <;> cases hsp : g.spacePressed <;>
    simp only [hk, hsp, Bool.not_false, Bool.not_true, if_true, if_false, Bool.false_eq_true] <;>
    split_ifs <;>
    simp_all [Player.toggleRotation]

/-! ## Explosion bursts -/

/-- A loop that runs `burstStep` once per element of `l` appends `l.length`
particles of the given size and colour, at the given position and with
lifetime 1, and makes two `rand()` calls per particle. -/
theorem burst_fold (h : Host) (x y : ℚ) (size : Int) (color : Nat) {α : Type} (l : List α)
    (st : List Particle × Nat) :
    ∃ new : List Particle,
      (l.foldl (fun st _ => burstStep h x y size color st) st).1 = st.1 ++ new ∧
      (l.foldl (fun st _ => burstStep h x y size color st) st).2 = st.2 + 2 * l.length ∧
      new.length = l.length ∧
      ∀ p ∈ new, p.color = color ∧ p.initialSize = size ∧ p.lifetime = 1 ∧
        p.maxLifetime = 1 ∧ p.x = x ∧ p.y = y := by
  induction l generalizing st with
  | nil => exact ⟨[], by simp⟩
  | cons a rest ih =>
    obtain ⟨new, h1, h2, h3, h4⟩ := ih (burstStep h x y size color st)
    refine ⟨(burstStep h x y size color st).1.drop st.1.length ++ new, ?_, ?_, ?_, ?_⟩
    · rw [List.foldl_cons, h1]; simp [burstStep]
    · rw [List.foldl_cons, h2]; simp [burstStep]; ring
    · simp [burstStep, h3]
    · intro p hp
      rcases List.mem_append.mp hp with hp | hp
      · simp [burstStep, Particle.init] at hp
        subst hp; simp
      · exact h4 p hp

/-- The loop of `explodePlayer` over `l` appends `2 * l.length` white
particles of size 20 and lifetime 1. -/
theorem explodePlayer_fold (h : Host) (pos1 pos2 : Int × Int) {α : Type} (l : List α)
    (st : List Particle × Nat) :
    ∃ new : List Particle,
      (l.foldl (fun st _ => explodePlayerStep h pos1 pos2 st) st).1 = st.1 ++ new ∧
      (l.foldl (fun st _ => explodePlayerStep h pos1 pos2 st) st).2 = st.2 + 2 * l.length ∧
      new.length = 2 * l.length ∧
      ∀ p ∈ new, p.color = 0xFFFFFFFF ∧ p.initialSize = 20 ∧ p.lifetime = 1 ∧
        p.maxLifetime = 1 := by
  induction l generalizing st with
  | nil => exact ⟨[], by simp⟩
  | cons a rest ih =>
    obtain ⟨new, h1, h2, h3, h4⟩ := ih (explodePlayerStep h pos1 pos2 st)
    refine ⟨(explodePlayerStep h pos1 pos2 st).1.drop st.1.length ++ new, ?_, ?_, ?_, ?_⟩
    · rw [List.foldl_cons, h1]; simp [explodePlayerStep]
    · rw [List.foldl_cons, h2]; simp [explodePlayerStep]; ring
    · simp [explodePlayerStep, h3]; ring
    · intro p hp
      rcases List.mem_append.mp hp with hp | hp
      · simp [explodePlayerStep, Particle.init] at hp
        rcases hp with hp | hp <;> subst hp <;> simp
      · exact h4 p hp

/-- Method `Enemy::explode` appends 20 red particles of size 10 and lifetime 1 at the
enemy position. -/
theorem Enemy.explode_red (h : Host) (e : Enemy) (st : List Particle × Nat) :
    ∃ new : List Particle,
      (e.explode h st).1 = st.1 ++ new ∧ (e.explode h st).2 = st.2 + 40 ∧ new.length = 20 ∧
      ∀ p ∈ new, p.color = 0xFFFF0000 ∧ p.initialSize = 10 ∧ p.lifetime = 1 ∧
        p.maxLifetime = 1 ∧ p.x = e.x ∧ p.y = e.y := by
  obtain ⟨new, h1, h2, h3, h4⟩ := burst_fold h e.x e.y 10 0xFFFF0000 (List.range 20) st
  exact ⟨new, h1, by simpa using h2, by simpa using h3, h4⟩

/-- Method `Bonus::explode` appends 20 yellow particles of size 10 and lifetime 1 at
the bonus position. -/
theorem Bonus.explode_yellow (h : Host) (b : Bonus) (st : List Particle × Nat) :
    ∃ new : List Particle,
      (b.explode h st).1 = st.1 ++ new ∧ (b.explode h st).2 = st.2 + 40 ∧ new.length = 20 ∧
      ∀ p ∈ new, p.color = 0xFFFFFF00 ∧ p.initialSize = 10 ∧ p.lifetime = 1 ∧
        p.maxLifetime = 1 ∧ p.x = b.x ∧ p.y = b.y := by
  obtain ⟨new, h1, h2, h3, h4⟩ := burst_fold h b.x b.y 10 0xFFFFFF00 (List.range 20) st
  exact ⟨new, h1, by simpa using h2, by simpa using h3, h4⟩

/-- Method `Game::explodePlayer` appends 100 white particles of size 20 and lifetime 1
and changes nothing but the shared particle list and the `rand()` count. -/
theorem Game.explodePlayer_spec (h : Host) (g : Game) :
    (∃ new : List Particle,
      (g.explodePlayer h).particles = g.particles ++ new ∧ new.length = 100 ∧
      ∀ p ∈ new, p.color = 0xFFFFFFFF ∧ p.initialSize = 20 ∧ p.lifetime = 1 ∧
        p.maxLifetime = 1) ∧
    (g.explodePlayer h).randCount = g.randCount + 100 ∧
    (g.explodePlayer h).player = g.player ∧ (g.explodePlayer h).enemies = g.enemies ∧
    (g.explodePlayer h).bonuses = g.bonuses ∧ (g.explodePlayer h).score = g.score ∧
    (g.explodePlayer h).spacePressed = g.spacePressed ∧
    (g.explodePlayer h).isGameOver = g.isGameOver ∧
    (g.explodePlayer h).isExplosionAnimation = g.isExplosionAnimation ∧
    (g.explodePlayer h).backgroundColor = g.backgroundColor ∧
    (g.explodePlayer h).colorIndex = g.colorIndex ∧ (g.explodePlayer h).buffer = g.buffer := by
  obtain ⟨new, h1, h2, h3, h4⟩ := explodePlayer_fold h (g.player.getPosition h 1)
    (g.player.getPosition h 2) (List.range 50) (g.particles, g.randCount)
  simp only [List.length_range] at h2 h3
  unfold Game.explodePlayer
  simp only [and_self, and_true]
  exact ⟨⟨new, h1, h3, h4⟩, h2⟩

/-! ## The branches of `Game::update` -/

/-- The enemy loop is left through `return` exactly when some enemy, after its
own `update`, overlaps the player. -/
theorem enemyLoop_isSome_iff (h : Host) (p : Player) (dt : ℚ) (es : List Enemy) :
    (enemyLoop h p dt es).2.isSome = true ↔
      ∃ e ∈ es, p.checkCollision h (toInt (e.update h dt).x) (toInt (e.update h dt).y) 10 = true := by
  induction es with
  | nil => simp [enemyLoop]
  | cons e rest ih =>
    unfold enemyLoop
    by_cases hc : p.checkCollision h (toInt (e.update h dt).x) (toInt (e.update h dt).y) 10 = true
    · simp [hc]
    · simp only [hc, if_false, Bool.false_eq_true]
      rw [ih]
      simp [hc]

/-- When the enemy loop runs to its end, every enemy has been updated and none
overlaps the player. -/
theorem enemyLoop_none (h : Host) (p : Player) (dt : ℚ) (es : List Enemy)
    (hn : (enemyLoop h p dt es).2 = none) :
    (enemyLoop h p dt es).1 = es.map (fun e => e.update h dt) ∧
      ∀ e ∈ es, p.checkCollision h (toInt (e.update h dt).x) (toInt (e.update h dt).y) 10 = false := by
  induction es with
  | nil => simp [enemyLoop]
  | cons e rest ih =>
    unfold enemyLoop at hn ⊢
    by_cases hc : p.checkCollision h (toInt (e.update h dt).x) (toInt (e.update h dt).y) 10 = true
    · simp [hc] at hn
    · simp only [hc, if_false, Bool.false_eq_true] at hn ⊢
      obtain ⟨h1, h2⟩ := ih hn
      refine ⟨by simp [h1], ?_⟩
      intro e1 he1
      rcases List.mem_cons.mp he1 with rfl | hm
      · simpa using hc
      · exact h2 e1 hm

/-- The enemy loop runs to its end when no advanced enemy overlaps the player. -/
theorem enemyLoop_eq_none (h : Host) (p : Player) (dt : ℚ) (es : List Enemy)
    (hno : ∀ e ∈ es, p.checkCollision h (toInt (e.update h dt).x) (toInt (e.update h dt).y) 10
      = false) :
    (enemyLoop h p dt es).2 = none := by
  cases hr : (enemyLoop h p dt es).2 with
  | none => rfl
  | some e0 =>
    have hs : (enemyLoop h p dt es).2.isSome = true := by rw [hr]; rfl
    obtain ⟨e, he, hc⟩ := (enemyLoop_isSome_iff h p dt es).mp hs
    rw [hno e he] at hc
    exact absurd hc (by decide)

/-- Branch of line 335: game over and no animation. -/
theorem Game.update_terminal (h : Host) (g : Game) (dt : ℚ)
    (hgo : g.isGameOver = true) (hex : g.isExplosionAnimation = false) :
    g.update h dt = g := by
  simp [Game.update, hgo, hex]

/-- Branch of lines 337-343: the explosion animation. -/
theorem Game.update_animation (h : Host) (g : Game) (dt : ℚ)
    (hex : g.isExplosionAnimation = true) :
    g.update h dt =
      if (advanceParticles g.particles dt).isEmpty then
        { g with particles := advanceParticles g.particles dt, isExplosionAnimation := false }
      else { g with particles := advanceParticles g.particles dt } := by
  simp [Game.update, hex, Game.updateParticles]

/-- Branch of lines 349-355: the death sequence, entered with the enemy that
hit the player. -/
theorem Game.update_death (h : Host) (g : Game) (dt : ℚ) (enemy : Enemy)
    (hgo : g.isGameOver = false) (hex : g.isExplosionAnimation = false)
    (hl : (enemyLoop h (g.player.update h dt) dt g.enemies).2 = some enemy) :
    g.update h dt =
      (Game.explodePlayer h
        { g with player := g.player.update h dt,
                 enemies := (enemyLoop h (g.player.update h dt) dt g.enemies).1,
                 particles := (enemy.explode h (g.particles, g.randCount)).1,
                 randCount := (enemy.explode h (g.particles, g.randCount)).2,
                 isGameOver := true, isExplosionAnimation := true }).clearEnemiesAndPlayer := by
  simp [Game.update, hgo, hex, hl]

/-- Branch of lines 358-388: no enemy hit the player. -/
theorem Game.update_alive (h : Host) (g : Game) (dt : ℚ)
    (hgo : g.isGameOver = false) (hex : g.isExplosionAnimation = false)
    (hl : (enemyLoop h (g.player.update h dt) dt g.enemies).2 = none) :
    g.update h dt = Game.finishTick h (g.afterLoops h dt) dt := by
  simp [Game.update, hgo, hex, hl, Game.afterLoops, Game.finishTick]

/-! ## What the bonus loop and the end of a tick leave alone -/

/-- Fields that a pickup does not touch, and its effect on the score. -/
theorem Game.pickup_frame (h : Host) (g : Game) (b : Bonus) :
    (g.pickup h b).player = g.player ∧ (g.pickup h b).enemies = g.enemies ∧
    (g.pickup h b).bonuses = g.bonuses ∧ (g.pickup h b).spacePressed = g.spacePressed ∧
    (g.pickup h b).isGameOver = g.isGameOver ∧
    (g.pickup h b).isExplosionAnimation = g.isExplosionAnimation ∧
    (g.pickup h b).buffer = g.buffer ∧ (g.pickup h b).score = g.score + 1 := by
  unfold Game.pickup
  simp only []
  split_ifs <;> simp [Game.changeBackgroundColor]

/-- Fields that the bonus loop does not touch. -/
theorem bonusLoop_frame (h : Host) (dt : ℚ) (bs : List Bonus) (g : Game) :
    (bonusLoop h dt g bs).1.player = g.player ∧ (bonusLoop h dt g bs).1.enemies = g.enemies ∧
    (bonusLoop h dt g bs).1.bonuses = g.bonuses ∧
    (bonusLoop h dt g bs).1.spacePressed = g.spacePressed ∧
    (bonusLoop h dt g bs).1.isGameOver = g.isGameOver ∧
    (bonusLoop h dt g bs).1.isExplosionAnimation = g.isExplosionAnimation ∧
    (bonusLoop h dt g bs).1.buffer = g.buffer := by
  induction bs generalizing g with
  | nil => simp [bonusLoop]
  | cons b rest ih =>
    unfold bonusLoop
    simp only []
    split_ifs
    · have hp := Game.pickup_frame h g (b.update h dt)
      have hi := ih (g.pickup h (b.update h dt))
      simp only [hi, hp, and_self]
    · exact ih g

/-- Fields of the game after the loops of a tick without collision. -/
theorem Game.afterLoops_frame (h : Host) (g : Game) (dt : ℚ) :
    (g.afterLoops h dt).player = g.player.update h dt ∧
    (g.afterLoops h dt).spacePressed = g.spacePressed ∧
    (g.afterLoops h dt).isGameOver = g.isGameOver ∧
    (g.afterLoops h dt).isExplosionAnimation = g.isExplosionAnimation ∧
    (g.afterLoops h dt).buffer = g.buffer ∧
    (g.afterLoops h dt).enemies =
      ((enemyLoop h (g.player.update h dt) dt g.enemies).1).filter
        (fun e => !decide (e.x = -1)) := by
  unfold Game.afterLoops
  simp only []
  have hf := bonusLoop_frame h dt g.bonuses
    { g with player := g.player.update h dt,
             enemies := ((enemyLoop h (g.player.update h dt) dt g.enemies).1).filter
               (fun e => !decide (e.x = -1)) }
  simp only [] at hf
  simp only [hf, and_self]

/-- Fields that the end of a tick does not touch. -/
theorem Game.finishTick_frame (h : Host) (g : Game) (dt : ℚ) :
    (Game.finishTick h g dt).player = g.player ∧
    (Game.finishTick h g dt).spacePressed = g.spacePressed ∧
    (Game.finishTick h g dt).isGameOver = g.isGameOver ∧
    (Game.finishTick h g dt).isExplosionAnimation = g.isExplosionAnimation ∧
    (Game.finishTick h g dt).score = g.score ∧
    (Game.finishTick h g dt).backgroundColor = g.backgroundColor ∧
    (Game.finishTick h g dt).colorIndex = g.colorIndex ∧
    (Game.finishTick h g dt).particles = advanceParticles g.particles dt := by
  unfold Game.finishTick
  simp only []
  split_ifs <;> simp [Game.updateParticles]

/-- No branch of `Game::update` changes the debounce flag or the rotation
direction. -/
theorem Game.update_keeps_rotation (h : Host) (g : Game) (dt : ℚ) :
    (g.update h dt).spacePressed = g.spacePressed ∧
      (g.update h dt).player.rotateClockwise = g.player.rotateClockwise := by
  cases hex : g.isExplosionAnimation
  · cases hgo : g.isGameOver
    · cases hl : (enemyLoop h (g.player.update h dt) dt g.enemies).2 with
      | none =>
        rw [Game.update_alive h g dt hgo hex hl]
        have h1 := Game.finishTick_frame h (g.afterLoops h dt) dt
        have h2 := Game.afterLoops_frame h g dt
        rw [h1.1, h1.2.1, h2.1, h2.2.1]
        simp [Player.update]
      | some e =>
        rw [Game.update_death h g dt e hgo hex hl]
        have h1 := Game.explodePlayer_spec h
          { g with player := g.player.update h dt,
                   enemies := (enemyLoop h (g.player.update h dt) dt g.enemies).1,
                   particles := (e.explode h (g.particles, g.randCount)).1,
                   randCount := (e.explode h (g.particles, g.randCount)).2,
                   isGameOver := true, isExplosionAnimation := true }
        simp only [Game.clearEnemiesAndPlayer, h1.2.2.1, h1.2.2.2.2.2.2.1]
        simp [Player.update]
    · rw [Game.update_terminal h g dt hgo hex]; exact ⟨rfl, rfl⟩
  · rw [Game.update_animation h g dt hex]
    split_ifs <;> exact ⟨rfl, rfl⟩

/-! ## Debounce -/

/-- While the space key stays pressed and the flag is set, `handleInput`
leaves the direction alone. -/
theorem Game.handleInput_held (h : Host) (ks : List (Int → Bool)) (g : Game)
    (hs : g.spacePressed = true) (hall : ∀ k ∈ ks, k h.VK_SPACE = true) :
    (ks.foldl (Game.handleInput h) g).player.rotateClockwise = g.player.rotateClockwise ∧
      (ks.foldl (Game.handleInput h) g).spacePressed = true := by
  induction ks generalizing g with
  | nil => exact ⟨rfl, hs⟩
  | cons k rest ih =>
    have hk := hall k (List.mem_cons_self _ _)
    have hr := Game.handleInput_rotation h g k
    rw [List.foldl_cons]
    have hi := ih (g.handleInput h k) (by rw [hr.2, hk])
      (fun k1 hk1 => hall k1 (List.mem_cons_of_mem _ hk1))
    rw [hi.1, hr.1]
    simp [hs, hi.2]

/-- C3: starting from a game with `spacePressed = false`, after `N ≥ 1`
consecutive `handleInput` calls that all report the space key pressed, the
rotation direction is the negation of the initial one and the flag is set;
a call changes the direction only when the flag is clear and the key is
pressed; a set flag is cleared only by a call that reports the key released;
and `update` changes neither the flag nor the direction. -/
theorem Game.handleInput_debounce (h : Host) :
    (∀ (ks : List (Int → Bool)) (g : Game), g.spacePressed = false → ks ≠ [] →
      (∀ k ∈ ks, k h.VK_SPACE = true) →
      (ks.foldl (Game.handleInput h) g).player.rotateClockwise = (!g.player.rotateClockwise) ∧
        (ks.foldl (Game.handleInput h) g).spacePressed = true) ∧
    (∀ (g : Game) (k : Int → Bool),
      (g.handleInput h k).player.rotateClockwise ≠ g.player.rotateClockwise →
        g.spacePressed = false ∧ k h.VK_SPACE = true) ∧
    (∀ (g : Game) (k : Int → Bool), g.spacePressed = true →
      ((g.handleInput h k).spacePressed = false ↔ k h.VK_SPACE = false)) ∧
    (∀ (g : Game) (dt : ℚ), (g.update h dt).spacePressed = g.spacePressed ∧
      (g.update h dt).player.rotateClockwise = g.player.rotateClockwise) := by
  refine ⟨?_, ?_, ?_, fun g dt => Game.update_keeps_rotation h g dt⟩
  · intro ks g hs hne hall
    cases ks with
    | nil => exact absurd rfl hne
    | cons k rest =>
      have hk := hall k (List.mem_cons_self _ _)
      have hr := Game.handleInput_rotation h g k
      have hi := Game.handleInput_held h rest (g.handleInput h k) (by rw [hr.2, hk])
        (fun k1 hk1 => hall k1 (List.mem_cons_of_mem _ hk1))
      rw [List.foldl_cons, hi.1, hr.1]
      simp [hs, hk, hi.2]
  · intro g k hne
    have hr := Game.handleInput_rotation h g k
    rw [hr.1] at hne
    by_contra hcon
    apply hne
    rw [if_neg]
    intro hc
    exact hcon ⟨hc.2, hc.1⟩
  · intro g k _
    rw [(Game.handleInput_rotation h g k).2]

/-- Witness for C3: the space key (code 32 on the 1024 x 768 host) held for
three calls on the freshly constructed game, which rotates clockwise. -/
theorem Game.handleInput_debounce_witness :
    ([fun c => decide (c = 32), fun c => decide (c = 32), fun c => decide (c = 32)].foldl
        (Game.handleInput demoHost) demoGame).player.rotateClockwise = false ∧
      ([fun c => decide (c = 32), fun c => decide (c = 32), fun c => decide (c = 32)].foldl
        (Game.handleInput demoHost) demoGame).spacePressed = true :=
  (Game.handleInput_debounce demoHost).1
    [fun c => decide (c = 32), fun c => decide (c = 32), fun c => decide (c = 32)] demoGame
    rfl (by simp) (by
      intro k hk
      simp only [List.mem_cons, List.mem_singleton, List.not_mem_nil, or_false, or_self] at hk
      subst hk; rfl)

/-! ## Death sequence -/

/-- C4: in a playing state (neither game over nor animating) whose shared
particle list holds `n` particles, if during `update(dt)` some enemy, after
being advanced, overlaps the advanced player (`checkCollision` on its truncated
position with radius 10), then afterwards `isGameOver` and
`isExplosionAnimation` are true, the enemy list and the player's trail list
are empty, and the shared list is the old one followed by 20 red particles
(the enemy) and 100 white ones (the player): `n + 120` particles. -/
theorem Game.update_death_sequence (h : Host) (g : Game) (dt : ℚ)
    (hgo : g.isGameOver = false) (hex : g.isExplosionAnimation = false)
    (hcol : ∃ e ∈ g.enemies, (g.player.update h dt).checkCollision h
      (toInt (e.update h dt).x) (toInt (e.update h dt).y) 10 = true) :
    (g.update h dt).isGameOver = true ∧ (g.update h dt).isExplosionAnimation = true ∧
    (g.update h dt).enemies = [] ∧ (g.update h dt).player.particles = [] ∧
    (g.update h dt).particles.length = g.particles.length + 120 ∧
    ∃ red white : List Particle,
      (g.update h dt).particles = g.particles ++ red ++ white ∧
      red.length = 20 ∧ white.length = 100 ∧
      (∀ p ∈ red, p.color = 0xFFFF0000) ∧ (∀ p ∈ white, p.color = 0xFFFFFFFF) := by
  have hsome := (enemyLoop_isSome_iff h (g.player.update h dt) dt g.enemies).mpr hcol
  obtain ⟨enemy, hl⟩ := Option.isSome_iff_exists.mp hsome
  rw [Game.update_death h g dt enemy hgo hex hl]
  obtain ⟨red, hr1, _, hr3, hr4⟩ := Enemy.explode_red h enemy (g.particles, g.randCount)
  have hp := Game.explodePlayer_spec h
    { g with player := g.player.update h dt,
             enemies := (enemyLoop h (g.player.update h dt) dt g.enemies).1,
             particles := (enemy.explode h (g.particles, g.randCount)).1,
             randCount := (enemy.explode h (g.particles, g.randCount)).2,
             isGameOver := true, isExplosionAnimation := true }
  obtain ⟨⟨white, hw1, hw2, hw3⟩, _, _, _, _, _, _, hgo2, hex2, _⟩ := hp
  simp only [] at hw1 hgo2 hex2 hr1
  refine ⟨hgo2, hex2, rfl, rfl, ?_, red, white, ?_, hr3, hw2, fun p hp => (hr4 p hp).1,
    fun p hp => (hw3 p hp).1⟩
  · show (Game.explodePlayer h _).particles.length = _
    rw [hw1, hr1]; simp [hr3, hw2]
  · show (Game.explodePlayer h _).particles = _
    rw [hw1, hr1]

/-- Witness for C4: the scenario with sphere 1 at angle 0 and an enemy on it,
with an empty shared list and `dt = 0`; 120 particles are pending afterwards. -/
theorem Game.update_death_sequence_witness :
    (deathGame.update demoHost 0).isGameOver = true ∧
    (deathGame.update demoHost 0).isExplosionAnimation = true ∧
    (deathGame.update demoHost 0).enemies = [] ∧
    (deathGame.update demoHost 0).player.particles = [] ∧
    (deathGame.update demoHost 0).particles.length = deathGame.particles.length + 120 ∧
    ∃ red white : List Particle,
      (deathGame.update demoHost 0).particles = deathGame.particles ++ red ++ white ∧
      red.length = 20 ∧ white.length = 100 ∧
      (∀ p ∈ red, p.color = 0xFFFF0000) ∧ (∀ p ∈ white, p.color = 0xFFFFFFFF) :=
  Game.update_death_sequence demoHost deathGame 0 rfl rfl
    ⟨demoEnemy, List.mem_singleton.mpr rfl, by decide!⟩

/-! ## Score milestones and the palette -/

/-- The truncating remainder by 5 vanishes exactly on the multiples of 5. -/
theorem tmod_five_eq_zero_iff (n : Int) : Int.tmod n 5 = 0 ↔ (5 : Int) ∣ n :=
  ⟨Int.dvd_of_tmod_eq_zero, Int.tmod_eq_zero_of_dvd⟩

/-- Effect of a pickup on the palette. -/
theorem Game.pickup_palette (h : Host) (g : Game) (b : Bonus) :
    ((5 : Int) ∣ g.score + 1 →
      (g.pickup h b).colorIndex = (g.colorIndex + 1) % 5 ∧
      (g.pickup h b).backgroundColor = colors.getD g.colorIndex 0) ∧
    (¬ (5 : Int) ∣ g.score + 1 →
      (g.pickup h b).colorIndex = g.colorIndex ∧
      (g.pickup h b).backgroundColor = g.backgroundColor) := by
  unfold Game.pickup
  simp only [tmod_five_eq_zero_iff]
  constructor
  · intro hd
    rw [if_pos hd]
    simp [Game.changeBackgroundColor, colors]
  · intro hd
    rw [if_neg hd]
    exact ⟨rfl, rfl⟩

/-- When the reset condition of line 329 fails, `handleInput` only does the
space-key handling. -/
theorem Game.handleInput_no_reset (h : Host) (g : Game) (k : Int → Bool)
    (hc : g.isGameOver = false ∨ g.isExplosionAnimation = true) :
    (g.handleInput h k).enemies = g.enemies ∧ (g.handleInput h k).bonuses = g.bonuses ∧
    (g.handleInput h k).particles = g.particles ∧ (g.handleInput h k).score = g.score ∧
    (g.handleInput h k).isGameOver = g.isGameOver ∧
    (g.handleInput h k).isExplosionAnimation = g.isExplosionAnimation ∧
    (g.handleInput h k).backgroundColor = g.backgroundColor ∧
    (g.handleInput h k).randCount = g.randCount ∧
    (g.handleInput h k).colorIndex = g.colorIndex ∧
    (g.handleInput h k).buffer = g.buffer := by
  unfold Game.handleInput
  rcases hc with hc | hc <;>
    cases hk : k h.VK_SPACE <;> cases hsp : g.spacePressed <;> simp [hc]

/-- When the reset condition of line 329 holds, `handleInput` ends with
`resetGame`. -/
theorem Game.handleInput_does_reset (h : Host) (g : Game) (k : Int → Bool)
    (hgo : g.isGameOver = true) (hex : g.isExplosionAnimation = false)
    (hr : k (('R' : Char).toNat : Int) = true) :
    ∃ g1 : Game, g.handleInput h k = g1.resetGame h ∧ g1.randCount = g.randCount := by
  unfold Game.handleInput
  cases hk : k h.VK_SPACE <;> cases hsp : g.spacePressed <;>
    simp only [hr, hgo, hex, Bool.not_false, Bool.not_true, Bool.and_self, if_true, if_false,
      Bool.false_eq_true] <;>
    exact ⟨_, rfl, rfl⟩

/-- The enemy that `addEnemy` appends starts on the bottom or on the right
edge, with speed 100. -/
theorem Game.addEnemy_spawn (h : Host) (g : Game) :
    ∃ e : Enemy, (g.addEnemy h).enemies = g.enemies ++ [e] ∧ e.speed = 100 ∧
      (e.y = ((h.SCREEN_HEIGHT - 1 : Int) : ℚ) ∨ e.x = ((h.SCREEN_WIDTH - 1 : Int) : ℚ)) := by
  unfold Game.addEnemy
  simp only []
  refine ⟨_, rfl, rfl, ?_⟩
  split_ifs
  · left; rfl
  · right; rfl

/-- The bonus that `addBonus` appends starts on the bottom or on the right
edge, with speed 100. -/
theorem Game.addBonus_spawn (h : Host) (g : Game) :
    ∃ b : Bonus, (g.addBonus h).bonuses = g.bonuses ++ [b] ∧ b.speed = 100 ∧
      (b.y = ((h.SCREEN_HEIGHT - 1 : Int) : ℚ) ∨ b.x = ((h.SCREEN_WIDTH - 1 : Int) : ℚ)) := by
  unfold Game.addBonus
  simp only []
  refine ⟨_, rfl, rfl, ?_⟩
  split_ifs
  · left; rfl
  · right; rfl

/-- After `resetGame` the two collections hold one freshly spawned entity each. -/
theorem Game.resetGame_spawn (h : Host) (g : Game) :
    (∃ e : Enemy, (g.resetGame h).enemies = [e] ∧ e.speed = 100 ∧
      (e.y = ((h.SCREEN_HEIGHT - 1 : Int) : ℚ) ∨ e.x = ((h.SCREEN_WIDTH - 1 : Int) : ℚ))) ∧
    (∃ b : Bonus, (g.resetGame h).bonuses = [b] ∧ b.speed = 100 ∧
      (b.y = ((h.SCREEN_HEIGHT - 1 : Int) : ℚ) ∨ b.x = ((h.SCREEN_WIDTH - 1 : Int) : ℚ))) := by
  have key : ∀ g0 : Game, g0.enemies = [] → g0.bonuses = [] →
      (∃ e : Enemy, ((g0.addEnemy h).addBonus h).enemies = [e] ∧ e.speed = 100 ∧
        (e.y = ((h.SCREEN_HEIGHT - 1 : Int) : ℚ) ∨ e.x = ((h.SCREEN_WIDTH - 1 : Int) : ℚ))) ∧
      (∃ b : Bonus, ((g0.addEnemy h).addBonus h).bonuses = [b] ∧ b.speed = 100 ∧
        (b.y = ((h.SCREEN_HEIGHT - 1 : Int) : ℚ) ∨ b.x = ((h.SCREEN_WIDTH - 1 : Int) : ℚ))) := by
    intro g0 hE hB
    constructor
    · obtain ⟨e, he, h1, h2⟩ := Game.addEnemy_spawn h g0
      refine ⟨e, ?_, h1, h2⟩
      rw [(Game.addBonus_frame h _).2.1, he, hE]; rfl
    · obtain ⟨b, hb, h1, h2⟩ := Game.addBonus_spawn h (g0.addEnemy h)
      refine ⟨b, ?_, h1, h2⟩
      rw [hb, (Game.addEnemy_frame h _).2.1, hB]; rfl
  unfold Game.resetGame
  exact key _ rfl rfl

/-- C6: in a state with `isGameOver = true` and `isExplosionAnimation = false`,
a `handleInput` call that reports `'R'` pressed leaves score 0,
`isGameOver = false`, background `0xFF808080`, an empty shared particle list,
exactly one enemy and exactly one bonus, both freshly spawned (speed 100,
starting on the bottom or right edge); in a state with `isGameOver = false` or
`isExplosionAnimation = true` the call performs no reset: collections, score,
flags, background and random source are as before. -/
theorem Game.handleInput_reset (h : Host) (g : Game) (k : Int → Bool) :
    (g.isGameOver = true → g.isExplosionAnimation = false →
      k (('R' : Char).toNat : Int) = true →
      (g.handleInput h k).score = 0 ∧ (g.handleInput h k).isGameOver = false ∧
      (g.handleInput h k).backgroundColor = 0xFF808080 ∧
      (g.handleInput h k).particles = [] ∧
      (g.handleInput h k).enemies.length = 1 ∧ (g.handleInput h k).bonuses.length = 1 ∧
      (∃ e : Enemy, (g.handleInput h k).enemies = [e] ∧ e.speed = 100 ∧
        (e.y = ((h.SCREEN_HEIGHT - 1 : Int) : ℚ) ∨ e.x = ((h.SCREEN_WIDTH - 1 : Int) : ℚ))) ∧
      (∃ b : Bonus, (g.handleInput h k).bonuses = [b] ∧ b.speed = 100 ∧
        (b.y = ((h.SCREEN_HEIGHT - 1 : Int) : ℚ) ∨ b.x = ((h.SCREEN_WIDTH - 1 : Int) : ℚ))) ∧
      (g.handleInput h k).randCount = g.randCount + 8) ∧
    ((g.isGameOver = false ∨ g.isExplosionAnimation = true) →
      (g.handleInput h k).enemies = g.enemies ∧ (g.handleInput h k).bonuses = g.bonuses ∧
      (g.handleInput h k).particles = g.particles ∧ (g.handleInput h k).score = g.score ∧
      (g.handleInput h k).isGameOver = g.isGameOver ∧
      (g.handleInput h k).isExplosionAnimation = g.isExplosionAnimation ∧
      (g.handleInput h k).backgroundColor = g.backgroundColor ∧
      (g.handleInput h k).randCount = g.randCount) := by
  constructor
  · intro hgo hex hr
    obtain ⟨g1, he, hrc⟩ := Game.handleInput_does_reset h g k hgo hex hr
    rw [he]
    have hf := Game.resetGame_fields h g1
    have hs := Game.resetGame_spawn h g1
    exact ⟨hf.2.2.2.2.2.1, hf.2.2.2.2.2.2.1, hf.2.2.2.2.2.2.2.1, hf.2.2.2.2.2.2.2.2.1,
      hf.2.2.2.2.2.2.2.2.2.1, hf.2.2.2.2.2.2.2.2.2.2.1, hs.1, hs.2,
      by rw [hf.2.2.2.2.2.2.2.2.2.2.2, hrc]⟩
  · intro hc
    have hn := Game.handleInput_no_reset h g k hc
    exact ⟨hn.1, hn.2.1, hn.2.2.1, hn.2.2.2.1, hn.2.2.2.2.1, hn.2.2.2.2.2.1, hn.2.2.2.2.2.2.1,
      hn.2.2.2.2.2.2.2.1⟩

/-- Witness for C6: `'R'` pressed in the static game-over state of the
1024 x 768 host. -/
theorem Game.handleInput_reset_witness :
    (overGame.handleInput demoHost onlyR).score = 0 ∧
    (overGame.handleInput demoHost onlyR).isGameOver = false ∧
    (overGame.handleInput demoHost onlyR).backgroundColor = 0xFF808080 ∧
    (overGame.handleInput demoHost onlyR).particles = [] ∧
    (overGame.handleInput demoHost onlyR).enemies.length = 1 ∧
    (overGame.handleInput demoHost onlyR).bonuses.length = 1 ∧
    (∃ e : Enemy, (overGame.handleInput demoHost onlyR).enemies = [e] ∧ e.speed = 100 ∧
      (e.y = ((demoHost.SCREEN_HEIGHT - 1 : Int) : ℚ) ∨
        e.x = ((demoHost.SCREEN_WIDTH - 1 : Int) : ℚ))) ∧
    (∃ b : Bonus, (overGame.handleInput demoHost onlyR).bonuses = [b] ∧ b.speed = 100 ∧
      (b.y = ((demoHost.SCREEN_HEIGHT - 1 : Int) : ℚ) ∨
        b.x = ((demoHost.SCREEN_WIDTH - 1 : Int) : ℚ))) ∧
    (overGame.handleInput demoHost onlyR).randCount = overGame.randCount + 8 :=
  (Game.handleInput_reset demoHost overGame onlyR).1 rfl rfl (by decide)

/-- C7: for every outcome of the random source, the state built by the `Game`
constructor has score 0, exactly one enemy, exactly one bonus, an empty shared
particle list, `isGameOver`, `isExplosionAnimation` and `spacePressed` false,
background `0xFF324961`, and a player with angle 0, clockwise rotation and an
empty trail list. -/
theorem Game.init_fresh (h : Host) (randCount colorIndex : Nat) (buffer : Buffer) :
    (Game.init h randCount colorIndex buffer).score = 0 ∧
    (Game.init h randCount colorIndex buffer).enemies.length = 1 ∧
    (Game.init h randCount colorIndex buffer).bonuses.length = 1 ∧
    (Game.init h randCount colorIndex buffer).particles = [] ∧
    (Game.init h randCount colorIndex buffer).isGameOver = false ∧
    (Game.init h randCount colorIndex buffer).isExplosionAnimation = false ∧
    (Game.init h randCount colorIndex buffer).spacePressed = false ∧
    (Game.init h randCount colorIndex buffer).backgroundColor = 0xFF324961 ∧
    (Game.init h randCount colorIndex buffer).player.angle = 0 ∧
    (Game.init h randCount colorIndex buffer).player.rotateClockwise = true ∧
    (Game.init h randCount colorIndex buffer).player.particles = [] := by
  simp [Game.init, Game.addEnemy, Game.addBonus, Player.init]

/-- C8: in a state with `isGameOver = true` and `isExplosionAnimation = false`,
`update(dt)` returns the state unchanged for every `dt`, and so does any
sequence of updates. -/
theorem Game.update_terminal_fixed (h : Host) (g : Game)
    (hgo : g.isGameOver = true) (hex : g.isExplosionAnimation = false) :
    (∀ dt : ℚ, g.update h dt = g) ∧ (∀ dts : List ℚ, dts.foldl (Game.update h) g = g) := by
  have h1 : ∀ dt : ℚ, g.update h dt = g := fun dt => Game.update_terminal h g dt hgo hex
  refine ⟨h1, ?_⟩
  intro dts
  induction dts with
  | nil => rfl
  | cons dt rest ih => rw [List.foldl_cons, h1 dt, ih]

/-- Witness for C8: the static game-over state of the 1024 x 768 host. -/
theorem Game.update_terminal_fixed_witness :
    (∀ dt : ℚ, overGame.update demoHost dt = overGame) ∧
      (∀ dts : List ℚ, dts.foldl (Game.update demoHost) overGame = overGame) :=
  Game.update_terminal_fixed demoHost overGame rfl rfl

/-- C9: in a state with `isExplosionAnimation = true`, `update(dt)` replaces
the shared particle list by the advanced and pruned one, clears
`isExplosionAnimation` exactly when that list is empty, and changes nothing
else: player, enemies, bonuses (nothing is spawned), score, `isGameOver`,
background, debounce flag, random source, palette index and frame buffer are
as before. -/
theorem Game.update_animation_tick (h : Host) (g : Game) (dt : ℚ)
    (hex : g.isExplosionAnimation = true) :
    (g.update h dt).particles = advanceParticles g.particles dt ∧
    ((g.update h dt).isExplosionAnimation = false ↔ (g.update h dt).particles = []) ∧
    ((g.update h dt).isExplosionAnimation = true ↔ (g.update h dt).particles ≠ []) ∧
    (g.update h dt).player = g.player ∧ (g.update h dt).enemies = g.enemies ∧
    (g.update h dt).bonuses = g.bonuses ∧ (g.update h dt).score = g.score ∧
    (g.update h dt).isGameOver = g.isGameOver ∧
    (g.update h dt).backgroundColor = g.backgroundColor ∧
    (g.update h dt).spacePressed = g.spacePressed ∧
    (g.update h dt).randCount = g.randCount ∧ (g.update h dt).colorIndex = g.colorIndex ∧
    (g.update h dt).buffer = g.buffer := by
  rw [Game.update_animation h g dt hex]
  by_cases he : (advanceParticles g.particles dt).isEmpty = true
  · rw [if_pos he]
    have he2 : advanceParticles g.particles dt = [] := List.isEmpty_iff.mp he
    simp [he2]
  · rw [if_neg he]
    have he2 : advanceParticles g.particles dt ≠ [] := fun hc => he (List.isEmpty_iff.mpr hc)
    simp [he2, hex]

/-- Witness for C9: the state right after the death sequence of `deathGame`,
advanced by half a second. -/
theorem Game.update_animation_tick_witness :
    ((deathGame.update demoHost 0).update demoHost (1 / 2)).particles =
      advanceParticles (deathGame.update demoHost 0).particles (1 / 2) ∧
    (((deathGame.update demoHost 0).update demoHost (1 / 2)).isExplosionAnimation = false ↔
      ((deathGame.update demoHost 0).update demoHost (1 / 2)).particles = []) :=
  ⟨(Game.update_animation_tick demoHost (deathGame.update demoHost 0) (1 / 2) (by decide!)).1,
   (Game.update_animation_tick demoHost (deathGame.update demoHost 0) (1 / 2) (by decide!)).2.1⟩

/-! ## Projectiles and the visible rectangle -/

/-- Method `Enemy::update` leaves the sentinel exactly when the advanced position is
outside the visible rectangle; otherwise the enemy is on screen. -/
theorem Enemy.update_marks_enemy (h : Host) (e : Enemy) (dt : ℚ) :
    ((e.update h dt).x = -1 ↔
      (e.x + e.dx * e.speed * dt < 0 ∨ e.x + e.dx * e.speed * dt ≥ (h.SCREEN_WIDTH : ℚ) ∨
        e.y + e.dy * e.speed * dt < 0 ∨ e.y + e.dy * e.speed * dt ≥ (h.SCREEN_HEIGHT : ℚ))) ∧
    ((e.update h dt).x = -1 ∨ (e.update h dt).onScreen h) := by
  unfold Enemy.update
  simp only []
  split_ifs with hc
  · simp [hc]
  · have hc2 := hc
    simp only [not_or, not_lt, ge_iff_le, not_le] at hc2
    obtain ⟨h1, h2, h3, h4⟩ := hc2
    refine ⟨⟨fun hx => ?_, fun ho => absurd ho hc⟩, Or.inr ⟨h1, h2, h3, h4⟩⟩
    simp only [] at hx
    linarith

/-- Method `Bonus::update` leaves the sentinel exactly when the advanced position is
outside the visible rectangle; otherwise the bonus is on screen. -/
theorem Bonus.update_marks_bonus (h : Host) (b : Bonus) (dt : ℚ) :
    ((b.update h dt).x = -1 ↔
      (b.x + b.dx * b.speed * dt < 0 ∨ b.x + b.dx * b.speed * dt ≥ (h.SCREEN_WIDTH : ℚ) ∨
        b.y + b.dy * b.speed * dt < 0 ∨ b.y + b.dy * b.speed * dt ≥ (h.SCREEN_HEIGHT : ℚ))) ∧
    ((b.update h dt).x = -1 ∨ (b.update h dt).onScreen h) := by
  unfold Bonus.update
  simp only []
  split_ifs with hc
  · simp [hc]
  · have hc2 := hc
    simp only [not_or, not_lt, ge_iff_le, not_le] at hc2
    obtain ⟨h1, h2, h3, h4⟩ := hc2
    refine ⟨⟨fun hx => ?_, fun ho => absurd ho hc⟩, Or.inr ⟨h1, h2, h3, h4⟩⟩
    simp only [] at hx
    linarith

/-- The start point computed by the spawning code is on screen. -/
theorem spawn_start_onScreen (h : Host) (hW : 1 ≤ h.SCREEN_WIDTH) (hH : 1 ≤ h.SCREEN_HEIGHT)
    (side : Int) (r : Nat) :
    0 ≤ (if side = 0 then (Int.tmod (r : Int) h.SCREEN_WIDTH, h.SCREEN_HEIGHT - 1)
          else (h.SCREEN_WIDTH - 1, Int.tmod (r : Int) h.SCREEN_HEIGHT)).1 ∧
    (if side = 0 then (Int.tmod (r : Int) h.SCREEN_WIDTH, h.SCREEN_HEIGHT - 1)
          else (h.SCREEN_WIDTH - 1, Int.tmod (r : Int) h.SCREEN_HEIGHT)).1 < h.SCREEN_WIDTH ∧
    0 ≤ (if side = 0 then (Int.tmod (r : Int) h.SCREEN_WIDTH, h.SCREEN_HEIGHT - 1)
          else (h.SCREEN_WIDTH - 1, Int.tmod (r : Int) h.SCREEN_HEIGHT)).2 ∧
    (if side = 0 then (Int.tmod (r : Int) h.SCREEN_WIDTH, h.SCREEN_HEIGHT - 1)
          else (h.SCREEN_WIDTH - 1, Int.tmod (r : Int) h.SCREEN_HEIGHT)).2 < h.SCREEN_HEIGHT := by
  have hr : (0 : Int) ≤ (r : Int) := Int.natCast_nonneg r
  have h1 := Int.tmod_nonneg h.SCREEN_WIDTH hr
  have h2 := Int.tmod_lt_of_pos (r : Int) (by omega : 0 < h.SCREEN_WIDTH)
  have h3 := Int.tmod_nonneg h.SCREEN_HEIGHT hr
  have h4 := Int.tmod_lt_of_pos (r : Int) (by omega : 0 < h.SCREEN_HEIGHT)
  split_ifs <;> simp only [] <;> omega

/-- Method `addEnemy` appends an enemy that is on screen. -/
theorem Game.addEnemy_onScreen (h : Host) (hW : 1 ≤ h.SCREEN_WIDTH) (hH : 1 ≤ h.SCREEN_HEIGHT)
    (g : Game) :
    ∃ e : Enemy, (g.addEnemy h).enemies = g.enemies ++ [e] ∧ e.onScreen h := by
  unfold Game.addEnemy
  simp only []
  refine ⟨_, rfl, ?_⟩
  obtain ⟨h1, h2, h3, h4⟩ := spawn_start_onScreen h hW hH
    (Int.tmod (h.rand g.randCount : Int) 2) (h.rand (g.randCount + 3))
  unfold Enemy.onScreen Enemy.init
  simp only []
  exact ⟨by exact_mod_cast h1, by exact_mod_cast h2, by exact_mod_cast h3, by exact_mod_cast h4⟩

/-- Method `addBonus` appends a bonus that is on screen. -/
theorem Game.addBonus_onScreen (h : Host) (hW : 1 ≤ h.SCREEN_WIDTH) (hH : 1 ≤ h.SCREEN_HEIGHT)
    (g : Game) :
    ∃ b : Bonus, (g.addBonus h).bonuses = g.bonuses ++ [b] ∧ b.onScreen h := by
  unfold Game.addBonus
  simp only []
  refine ⟨_, rfl, ?_⟩
  obtain ⟨h1, h2, h3, h4⟩ := spawn_start_onScreen h hW hH
    (Int.tmod (h.rand g.randCount : Int) 2) (h.rand (g.randCount + 3))
  unfold Bonus.onScreen Bonus.init
  simp only []
  exact ⟨by exact_mod_cast h1, by exact_mod_cast h2, by exact_mod_cast h3, by exact_mod_cast h4⟩

/-- Spawning an enemy keeps the collections on screen. -/
theorem Game.addEnemy_allOnScreen (h : Host) (hW : 1 ≤ h.SCREEN_WIDTH)
    (hH : 1 ≤ h.SCREEN_HEIGHT) (g : Game) (hg : g.allOnScreen h) :
    (g.addEnemy h).allOnScreen h := by
  obtain ⟨e, he, ho⟩ := Game.addEnemy_onScreen h hW hH g
  refine ⟨?_, ?_⟩
  · intro e1 he1
    rw [he] at he1
    rcases List.mem_append.mp he1 with hm | hm
    · exact hg.1 e1 hm
    · rw [List.mem_singleton.mp hm]; exact ho
  · rw [(Game.addEnemy_frame h g).2.1]; exact hg.2

/-- Spawning a bonus keeps the collections on screen. -/
theorem Game.addBonus_allOnScreen (h : Host) (hW : 1 ≤ h.SCREEN_WIDTH)
    (hH : 1 ≤ h.SCREEN_HEIGHT) (g : Game) (hg : g.allOnScreen h) :
    (g.addBonus h).allOnScreen h := by
  obtain ⟨b, hb, ho⟩ := Game.addBonus_onScreen h hW hH g
  refine ⟨?_, ?_⟩
  · rw [(Game.addBonus_frame h g).2.1]; exact hg.1
  · intro b1 hb1
    rw [hb] at hb1
    rcases List.mem_append.mp hb1 with hm | hm
    · exact hg.2 b1 hm
    · rw [List.mem_singleton.mp hm]; exact ho

/-- The end of a tick keeps the collections on screen. -/
theorem Game.finishTick_allOnScreen (h : Host) (hW : 1 ≤ h.SCREEN_WIDTH)
    (hH : 1 ≤ h.SCREEN_HEIGHT) (g : Game) (dt : ℚ) (hg : g.allOnScreen h) :
    (Game.finishTick h g dt).allOnScreen h := by
  unfold Game.finishTick
  simp only []
  have h5 : Game.allOnScreen h
      { g.updateParticles dt with
        buffer := drawText h (g.updateParticles dt).buffer 30 30
          (toString (g.updateParticles dt).score).toList 20 0xFFFFFFFF } := hg
  split_ifs
  · exact Game.addEnemy_allOnScreen h hW hH _ (Game.addBonus_allOnScreen h hW hH _ h5)
  · exact Game.addBonus_allOnScreen h hW hH _ h5
  · exact Game.addEnemy_allOnScreen h hW hH _ h5
  · exact h5

/-- Every bonus the loop leaves in the vector carries the sentinel or is on
screen. -/
theorem bonusLoop_list (h : Host) (dt : ℚ) (bs : List Bonus) (g : Game) :
    ∀ b ∈ (bonusLoop h dt g bs).2, b.x = -1 ∨ b.onScreen h := by
  induction bs generalizing g with
  | nil => simp [bonusLoop]
  | cons b rest ih =>
    unfold bonusLoop
    simp only []
    split_ifs
    · intro b1 hb1
      rcases List.mem_cons.mp hb1 with hm | hm
      · left; rw [hm]
      · exact ih _ b1 hm
    · intro b1 hb1
      rcases List.mem_cons.mp hb1 with hm | hm
      · rw [hm]; exact (Bonus.update_marks_bonus h b dt).2
      · exact ih _ b1 hm

/-- The bonus vector after the loops of a tick. -/
theorem Game.afterLoops_bonuses (h : Host) (g : Game) (dt : ℚ) :
    ∃ g2 : Game, (g.afterLoops h dt).bonuses =
      ((bonusLoop h dt g2 g.bonuses).2).filter (fun b => !decide (b.x = -1)) := by
  unfold Game.afterLoops
  exact ⟨_, rfl⟩

/-- After the loops and prunings of a tick in which no enemy hit the player,
everything left in the collections is on screen. -/
theorem Game.afterLoops_allOnScreen (h : Host) (g : Game) (dt : ℚ)
    (hl : (enemyLoop h (g.player.update h dt) dt g.enemies).2 = none) :
    (g.afterLoops h dt).allOnScreen h := by
  constructor
  · intro e he
    rw [(Game.afterLoops_frame h g dt).2.2.2.2.2, (enemyLoop_none h _ dt g.enemies hl).1] at he
    obtain ⟨hm, hx⟩ := List.mem_filter.mp he
    obtain ⟨e0, _, rfl⟩ := List.mem_map.mp hm
    rcases (Enemy.update_marks_enemy h e0 dt).2 with hs | hs
    · simp [hs] at hx
    · exact hs
  · intro b hb
    obtain ⟨g2, hg2⟩ := Game.afterLoops_bonuses h g dt
    rw [hg2] at hb
    obtain ⟨hm, hx⟩ := List.mem_filter.mp hb
    rcases bonusLoop_list h dt g.bonuses g2 b hm with hs | hs
    · simp [hs] at hx
    · exact hs

/-- The constructed game has its two entities on screen. -/
theorem Game.init_allOnScreen (h : Host) (hW : 1 ≤ h.SCREEN_WIDTH) (hH : 1 ≤ h.SCREEN_HEIGHT)
    (randCount colorIndex : Nat) (buffer : Buffer) :
    (Game.init h randCount colorIndex buffer).allOnScreen h := by
  unfold Game.init
  apply Game.addBonus_allOnScreen h hW hH
  apply Game.addEnemy_allOnScreen h hW hH
  exact ⟨fun e he => absurd he (List.not_mem_nil e), fun b hb => absurd hb (List.not_mem_nil b)⟩

/-- The game after `resetGame` has its two entities on screen. -/
theorem Game.resetGame_allOnScreen (h : Host) (hW : 1 ≤ h.SCREEN_WIDTH)
    (hH : 1 ≤ h.SCREEN_HEIGHT) (g : Game) : (g.resetGame h).allOnScreen h := by
  unfold Game.resetGame
  apply Game.addBonus_allOnScreen h hW hH
  apply Game.addEnemy_allOnScreen h hW hH
  exact ⟨fun e he => absurd he (List.not_mem_nil e), fun b hb => absurd hb (List.not_mem_nil b)⟩

/-- Method `handleInput` keeps the collections on screen. -/
theorem Game.handleInput_allOnScreen (h : Host) (hW : 1 ≤ h.SCREEN_WIDTH)
    (hH : 1 ≤ h.SCREEN_HEIGHT) (g : Game) (k : Int → Bool) (hg : g.allOnScreen h) :
    (g.handleInput h k).allOnScreen h := by
  by_cases hc : g.isGameOver = false ∨ g.isExplosionAnimation = true
  · have hn := Game.handleInput_no_reset h g k hc
    unfold Game.allOnScreen
    rw [hn.1, hn.2.1]; exact hg
  · have hgo : g.isGameOver = true := by
      cases hv : g.isGameOver
      · exact absurd (Or.inl hv) hc
      · rfl
    have hex : g.isExplosionAnimation = false := by
      cases hv : g.isExplosionAnimation
      · rfl
      · exact absurd (Or.inr hv) hc
    cases hr : k (('R' : Char).toNat : Int)
    · have : (g.handleInput h k).enemies = g.enemies ∧ (g.handleInput h k).bonuses = g.bonuses := by
        have hr82 : k 82 = false := by simpa using hr
        unfold Game.handleInput
        cases hk : k h.VK_SPACE <;> cases hsp : g.spacePressed <;> simp [hr82]
      unfold Game.allOnScreen
      rw [this.1, this.2]; exact hg
    · obtain ⟨g1, he, _⟩ := Game.handleInput_does_reset h g k hgo hex hr
      rw [he]; exact Game.resetGame_allOnScreen h hW hH g1

/-- Every branch of `update` keeps the collections on screen. -/
theorem Game.update_allOnScreen (h : Host) (hW : 1 ≤ h.SCREEN_WIDTH)
    (hH : 1 ≤ h.SCREEN_HEIGHT) (g : Game) (dt : ℚ) (hg : g.allOnScreen h) :
    (g.update h dt).allOnScreen h := by
  cases hex : g.isExplosionAnimation
  · cases hgo : g.isGameOver
    · cases hl : (enemyLoop h (g.player.update h dt) dt g.enemies).2 with
      | none =>
        rw [Game.update_alive h g dt hgo hex hl]
        exact Game.finishTick_allOnScreen h hW hH _ dt (Game.afterLoops_allOnScreen h g dt hl)
      | some e =>
        rw [Game.update_death h g dt e hgo hex hl]
        refine ⟨fun e1 he1 => absurd he1 (List.not_mem_nil e1), ?_⟩
        show ∀ b ∈ (Game.explodePlayer h _).bonuses, b.onScreen h
        rw [(Game.explodePlayer_spec h _).2.2.2.2.1]
        exact hg.2
    · rw [Game.update_terminal h g dt hgo hex]; exact hg
  · rw [Game.update_animation h g dt hex]
    split_ifs <;> exact hg

/-- In every reachable state the collections are on screen. -/
theorem Reachable.allOnScreen (h : Host) (hW : 1 ≤ h.SCREEN_WIDTH) (hH : 1 ≤ h.SCREEN_HEIGHT)
    (g : Game) (hr : Reachable h g) : g.allOnScreen h := by
  induction hr with
  | init rc ci buf => exact Game.init_allOnScreen h hW hH rc ci buf
  | handleInput k _ ih => exact Game.handleInput_allOnScreen h hW hH _ k ih
  | update dt _ ih => exact Game.update_allOnScreen h hW hH _ dt ih

/-- No particle with `lifetime ≤ 0` is left by the advance-and-prune loop. -/
theorem advanceParticles_alive (ps : List Particle) (dt : ℚ) :
    ∀ p ∈ advanceParticles ps dt, 0 < p.lifetime := by
  intro p hp
  unfold advanceParticles at hp
  have := (List.mem_filter.mp hp).2
  simpa using this

/-- The bonus loop keeps the length of the vector and does not lower the score. -/
theorem bonusLoop_counts (h : Host) (dt : ℚ) (bs : List Bonus) (g : Game) :
    (bonusLoop h dt g bs).2.length = bs.length ∧ g.score ≤ (bonusLoop h dt g bs).1.score := by
  induction bs generalizing g with
  | nil => simp [bonusLoop]
  | cons b rest ih =>
    unfold bonusLoop
    simp only []
    split_ifs
    · have hi := ih (g.pickup h (b.update h dt))
      have hp := (Game.pickup_frame h g (b.update h dt)).2.2.2.2.2.2.2
      refine ⟨by simp [hi.1], ?_⟩
      show g.score ≤ (bonusLoop h dt (g.pickup h (b.update h dt)) rest).1.score
      omega
    · have hi := ih g
      exact ⟨by simp [hi.1], hi.2⟩

/-- After the loops and prunings of a tick without collision there are no more
enemies and bonuses than before, and the score is not lower. -/
theorem Game.afterLoops_counts (h : Host) (g : Game) (dt : ℚ)
    (hl : (enemyLoop h (g.player.update h dt) dt g.enemies).2 = none) :
    (g.afterLoops h dt).bonuses.length ≤ g.bonuses.length ∧
    (g.afterLoops h dt).enemies.length ≤ g.enemies.length ∧
    g.score ≤ (g.afterLoops h dt).score := by
  refine ⟨?_, ?_, ?_⟩
  · unfold Game.afterLoops
    simp only []
    refine le_trans (List.length_filter_le _ _) ?_
    rw [(bonusLoop_counts h dt g.bonuses _).1]
  · rw [(Game.afterLoops_frame h g dt).2.2.2.2.2, (enemyLoop_none h _ dt g.enemies hl).1]
    refine le_trans (List.length_filter_le _ _) ?_
    simp
  · unfold Game.afterLoops
    simp only []
    exact (bonusLoop_counts h dt g.bonuses _).2

/-- The comparison of line 386 for a score in the range of a non-negative
`int`: the enemy count is below `score / 5 + 1`. -/
theorem sizeLtInt_score (e : Nat) (s : Int) (h0 : 0 ≤ s) :
    (sizeLtInt e (Int.tdiv s 5 + 1) = true → (e : Int) < s / 5 + 1) ∧
    (s ≤ 2147483647 → (sizeLtInt e (Int.tdiv s 5 + 1) = true ↔ (e : Int) < s / 5 + 1)) := by
  unfold sizeLtInt
  rw [Int.tdiv_eq_ediv h0 (by decide), decide_eq_true_iff]
  norm_num
  constructor
  · intro hlt; omega
  · intro hmax; constructor <;> intro hlt <;> omega

/-- Score and collection sizes after the end of a tick (lines 379-388). -/
theorem Game.finishTick_counts (h : Host) (g : Game) (dt : ℚ) :
    (Game.finishTick h g dt).bonuses.length =
      (if g.bonuses.length < 1 then g.bonuses.length + 1 else g.bonuses.length) ∧
    (Game.finishTick h g dt).enemies.length =
      (if sizeLtInt g.enemies.length (Int.tdiv g.score 5 + 1) = true then g.enemies.length + 1
       else g.enemies.length) := by
  unfold Game.finishTick
  simp only []
  by_cases hb : g.bonuses.length < 1
  · by_cases he : sizeLtInt g.enemies.length (Int.tdiv g.score 5 + 1) = true
    · simp [hb, he, Game.updateParticles]
    · simp [hb, he, Game.updateParticles]
  · by_cases he : sizeLtInt g.enemies.length (Int.tdiv g.score 5 + 1) = true
    · simp [hb, he, Game.updateParticles]
    · simp [hb, he, Game.updateParticles]

/-- Either `handleInput` leaves everything but the player and the debounce
flag alone, or the reset condition held and it ends with `resetGame` on a
state that is not animating. -/
theorem Game.handleInput_cases (h : Host) (g : Game) (k : Int → Bool) :
    ((g.handleInput h k).enemies = g.enemies ∧ (g.handleInput h k).bonuses = g.bonuses ∧
      (g.handleInput h k).particles = g.particles ∧ (g.handleInput h k).score = g.score ∧
      (g.handleInput h k).isGameOver = g.isGameOver ∧
      (g.handleInput h k).isExplosionAnimation = g.isExplosionAnimation ∧
      (g.handleInput h k).backgroundColor = g.backgroundColor ∧
      (g.handleInput h k).randCount = g.randCount ∧
      (g.handleInput h k).colorIndex = g.colorIndex) ∨
    (g.isGameOver = true ∧ g.isExplosionAnimation = false ∧
      k (('R' : Char).toNat : Int) = true ∧
      ∃ g1 : Game, g.handleInput h k = g1.resetGame h ∧ g1.isExplosionAnimation = false ∧
        g1.player.angle = g.player.angle ∧ g1.player.particles = g.player.particles ∧
        g1.colorIndex = g.colorIndex) := by
  by_cases hc : g.isGameOver = false ∨ g.isExplosionAnimation = true
  · left
    have hn := Game.handleInput_no_reset h g k hc
    exact ⟨hn.1, hn.2.1, hn.2.2.1, hn.2.2.2.1, hn.2.2.2.2.1, hn.2.2.2.2.2.1, hn.2.2.2.2.2.2.1,
      hn.2.2.2.2.2.2.2.1, hn.2.2.2.2.2.2.2.2.1⟩
  · have hgo : g.isGameOver = true := by
      cases hv : g.isGameOver
      · exact absurd (Or.inl hv) hc
      · rfl
    have hex : g.isExplosionAnimation = false := by
      cases hv : g.isExplosionAnimation
      · rfl
      · exact absurd (Or.inr hv) hc
    cases hr : k (('R' : Char).toNat : Int)
    · left
      have hr82 : k 82 = false := by simpa using hr
      unfold Game.handleInput
      cases hk : k h.VK_SPACE <;> cases hsp : g.spacePressed <;> simp [hr82]
    · right
      have hr82 : k 82 = true := by simpa using hr
      refine ⟨hgo, hex, rfl, ?_⟩
      unfold Game.handleInput
      cases hk : k h.VK_SPACE <;> cases hsp : g.spacePressed <;>
        simp only [hr82, hgo, hex, Bool.not_false, Bool.not_true, Bool.and_self, if_true,
          if_false, Bool.false_eq_true, Char.reduceToNat, Nat.cast_ofNat] <;>
        first | exact ⟨_, rfl, hex, rfl, rfl, rfl⟩ | exact ⟨_, rfl, rfl, rfl, rfl, rfl⟩

/-- Fields after the death sequence. -/
theorem Game.update_death_fields (h : Host) (g : Game) (dt : ℚ) (enemy : Enemy)
    (hgo : g.isGameOver = false) (hex : g.isExplosionAnimation = false)
    (hl : (enemyLoop h (g.player.update h dt) dt g.enemies).2 = some enemy) :
    (g.update h dt).isGameOver = true ∧ (g.update h dt).isExplosionAnimation = true ∧
    (g.update h dt).enemies = [] ∧ (g.update h dt).bonuses = g.bonuses ∧
    (g.update h dt).score = g.score ∧ (g.update h dt).colorIndex = g.colorIndex ∧
    (g.update h dt).backgroundColor = g.backgroundColor := by
  rw [Game.update_death h g dt enemy hgo hex hl]
  have hp := Game.explodePlayer_spec h
    { g with player := g.player.update h dt,
             enemies := (enemyLoop h (g.player.update h dt) dt g.enemies).1,
             particles := (enemy.explode h (g.particles, g.randCount)).1,
             randCount := (enemy.explode h (g.particles, g.randCount)).2,
             isGameOver := true, isExplosionAnimation := true }
  obtain ⟨_, _, _, _, hb, hs, _, hgo2, hex2, hbg, hci, _⟩ := hp
  exact ⟨hgo2, hex2, rfl, hb, hs, hci, hbg⟩

/-- The constructed game is consistent. -/
theorem Game.init_consistent (h : Host) (randCount colorIndex : Nat) (buffer : Buffer) :
    (Game.init h randCount colorIndex buffer).consistent := by
  simp [Game.consistent, Game.init, Game.addEnemy, Game.addBonus]

/-- The method `handleInput` keeps the state consistent. -/
theorem Game.handleInput_consistent (h : Host) (g : Game) (k : Int → Bool)
    (hg : g.consistent) : (g.handleInput h k).consistent := by
  rcases Game.handleInput_cases h g k with hc | ⟨_, _, _, g1, he, hex1, _⟩
  · obtain ⟨h1, h2, _, h4, h5, h6, _⟩ := hc
    unfold Game.consistent
    rw [h1, h2, h4, h5, h6]; exact hg
  · rw [he]
    have hf := Game.resetGame_fields h g1
    obtain ⟨_, _, hf3, _, _, hf6, hf7, _, _, hf10, hf11, _⟩ := hf
    unfold Game.consistent
    rw [hf3, hf6, hf7, hf10, hf11, hex1]
    simp

/-- The method `update` keeps the state consistent. -/
theorem Game.update_consistent (h : Host) (g : Game) (dt : ℚ) (hg : g.consistent) :
    (g.update h dt).consistent := by
  obtain ⟨hg1, hg2, hg3, hg4⟩ := hg
  cases hex : g.isExplosionAnimation
  · cases hgo : g.isGameOver
    · cases hl : (enemyLoop h (g.player.update h dt) dt g.enemies).2 with
      | none =>
        rw [Game.update_alive h g dt hgo hex hl]
        have hf := Game.finishTick_frame h (g.afterLoops h dt) dt
        have hc := Game.finishTick_counts h (g.afterLoops h dt) dt
        have ha := Game.afterLoops_frame h g dt
        have hn := Game.afterLoops_counts h g dt hl
        obtain ⟨_, _, hf3, hf4, hf5, _⟩ := hf
        obtain ⟨_, _, ha3, ha4, _⟩ := ha
        obtain ⟨hn1, hn2, hn3⟩ := hn
        have hs0 : 0 ≤ (g.afterLoops h dt).score := le_trans hg2 hn3
        unfold Game.consistent
        rw [hf3, hf4, hf5, ha3, ha4, hc.1, hc.2, hgo, hex]
        refine ⟨fun hc => absurd hc (by decide), hs0, ?_, ?_⟩
        · split_ifs <;> omega
        · split_ifs with hsp
          · have := (sizeLtInt_score (g.afterLoops h dt).enemies.length _ hs0).1 hsp
            push_cast; omega
          · omega
      | some e =>
        obtain ⟨h1, h2, h3, h4, h5, _⟩ := Game.update_death_fields h g dt e hgo hex hl
        unfold Game.consistent
        rw [h1, h2, h3, h4, h5]
        refine ⟨fun _ => rfl, hg2, hg3, ?_⟩
        simp only [List.length_nil, Nat.cast_zero]
        omega
    · rw [Game.update_terminal h g dt hgo hex]; exact ⟨hg1, hg2, hg3, hg4⟩
  · rw [Game.update_animation h g dt hex]
    have hgo := hg1 hex
    split_ifs
    · exact ⟨by simp, hg2, hg3, hg4⟩
    · exact ⟨fun _ => hgo, hg2, hg3, hg4⟩

/-- Every reachable state is consistent. -/
theorem Reachable.consistent (h : Host) (g : Game) (hr : Reachable h g) : g.consistent := by
  induction hr with
  | init rc ci buf => exact Game.init_consistent h rc ci buf
  | handleInput k _ ih => exact Game.handleInput_consistent h _ k ih
  | update dt _ ih => exact Game.update_consistent h _ dt ih

/-- C13: in an `update` tick that reaches the spawning steps (playing state,
no enemy hits the player), with `b` bonuses and `e` enemies left after pruning
and score `s` after pickups, the tick ends with score `s`, with `b + 1`
bonuses if `b < 1` and `b` otherwise, and, for a score in the range of a
non-negative `int` (as in every reachable state), with `e + 1` enemies if
`e < s / 5 + 1` (floor division) and `e` otherwise; at most one bonus and at
most one enemy are spawned. -/
theorem Game.update_spawning (h : Host) (g : Game) (dt : ℚ)
    (hgo : g.isGameOver = false) (hex : g.isExplosionAnimation = false)
    (hno : ∀ e ∈ g.enemies, (g.player.update h dt).checkCollision h
      (toInt (e.update h dt).x) (toInt (e.update h dt).y) 10 = false) :
    (g.update h dt).score = (g.afterLoops h dt).score ∧
    (g.update h dt).bonuses.length =
      (if (g.afterLoops h dt).bonuses.length < 1 then (g.afterLoops h dt).bonuses.length + 1
       else (g.afterLoops h dt).bonuses.length) ∧
    ((0 ≤ g.score ∨ Reachable h g) → (g.afterLoops h dt).score ≤ 2147483647 →
      (g.update h dt).enemies.length =
        (if ((g.afterLoops h dt).enemies.length : Int) < (g.afterLoops h dt).score / 5 + 1 then
          (g.afterLoops h dt).enemies.length + 1
         else (g.afterLoops h dt).enemies.length)) ∧
    (g.afterLoops h dt).bonuses.length ≤ (g.update h dt).bonuses.length ∧
    (g.update h dt).bonuses.length ≤ (g.afterLoops h dt).bonuses.length + 1 ∧
    (g.afterLoops h dt).enemies.length ≤ (g.update h dt).enemies.length ∧
    (g.update h dt).enemies.length ≤ (g.afterLoops h dt).enemies.length + 1 := by
  have hl := enemyLoop_eq_none h (g.player.update h dt) dt g.enemies hno
  rw [Game.update_alive h g dt hgo hex hl]
  have hf := Game.finishTick_frame h (g.afterLoops h dt) dt
  have hc := Game.finishTick_counts h (g.afterLoops h dt) dt
  refine ⟨hf.2.2.2.2.1, hc.1, ?_, ?_, ?_, ?_, ?_⟩
  · intro hs hmax
    have hs0 : 0 ≤ g.score := by
      rcases hs with hs | hs
      · exact hs
      · exact (Reachable.consistent h g hs).2.1
    have hs1 : 0 ≤ (g.afterLoops h dt).score :=
      le_trans hs0 (Game.afterLoops_counts h g dt hl).2.2
    rw [hc.2]
    have hiff := (sizeLtInt_score (g.afterLoops h dt).enemies.length _ hs1).2 hmax
    by_cases hlt : ((g.afterLoops h dt).enemies.length : Int) < (g.afterLoops h dt).score / 5 + 1
    · rw [if_pos (hiff.mpr hlt), if_pos hlt]
    · rw [if_neg (fun hc2 => hlt (hiff.mp hc2)), if_neg hlt]
  · rw [hc.1]; split_ifs <;> omega
  · rw [hc.1]; split_ifs <;> omega
  · rw [hc.2]; split_ifs <;> omega
  · rw [hc.2]; split_ifs <;> omega

/-- Witness for C13: one sixtieth of a second on the fresh game of the
1024 x 768 host. -/
theorem Game.update_spawning_witness :
    (demoGame.update demoHost (1 / 60)).score = (demoGame.afterLoops demoHost (1 / 60)).score ∧
    (demoGame.update demoHost (1 / 60)).bonuses.length =
      (if (demoGame.afterLoops demoHost (1 / 60)).bonuses.length < 1 then
        (demoGame.afterLoops demoHost (1 / 60)).bonuses.length + 1
       else (demoGame.afterLoops demoHost (1 / 60)).bonuses.length) ∧
    (demoGame.update demoHost (1 / 60)).enemies.length =
      (if ((demoGame.afterLoops demoHost (1 / 60)).enemies.length : Int) <
          (demoGame.afterLoops demoHost (1 / 60)).score / 5 + 1 then
        (demoGame.afterLoops demoHost (1 / 60)).enemies.length + 1
       else (demoGame.afterLoops demoHost (1 / 60)).enemies.length) :=
  ⟨(Game.update_spawning demoHost demoGame (1 / 60) rfl rfl (by decide!)).1,
   (Game.update_spawning demoHost demoGame (1 / 60) rfl rfl (by decide!)).2.1,
   (Game.update_spawning demoHost demoGame (1 / 60) rfl rfl (by decide!)).2.2.1
     (Or.inl (by decide!)) (by decide!)⟩

/-- C19: in every state reachable from the constructor by `handleInput` and
`update` calls, `isExplosionAnimation = true` implies `isGameOver = true`, so
the game is in exactly one of three phases: playing (both false), exploding
(both true) or static game-over (`isGameOver` true, no animation); and a
`handleInput` call made outside the static game-over phase resets nothing:
collections, score, flags, background and random source stay as they are. -/
theorem Reachable.flag_phases (h : Host) (g : Game) (hr : Reachable h g) :
    (g.isExplosionAnimation = true → g.isGameOver = true) ∧
    ((g.isGameOver = false ∧ g.isExplosionAnimation = false) ∨
      (g.isGameOver = true ∧ g.isExplosionAnimation = true) ∨
      (g.isGameOver = true ∧ g.isExplosionAnimation = false)) ∧
    (∀ k : Int → Bool, ¬ (g.isGameOver = true ∧ g.isExplosionAnimation = false) →
      (g.handleInput h k).enemies = g.enemies ∧ (g.handleInput h k).bonuses = g.bonuses ∧
      (g.handleInput h k).particles = g.particles ∧ (g.handleInput h k).score = g.score ∧
      (g.handleInput h k).isGameOver = g.isGameOver ∧
      (g.handleInput h k).isExplosionAnimation = g.isExplosionAnimation ∧
      (g.handleInput h k).backgroundColor = g.backgroundColor ∧
      (g.handleInput h k).randCount = g.randCount) := by
  have hc := (Reachable.consistent h g hr).1
  refine ⟨hc, ?_, ?_⟩
  · cases hex : g.isExplosionAnimation
    · cases hgo : g.isGameOver
      · exact Or.inl ⟨rfl, rfl⟩
      · exact Or.inr (Or.inr ⟨rfl, rfl⟩)
    · exact Or.inr (Or.inl ⟨hc hex, rfl⟩)
  · intro k hn
    rcases Game.handleInput_cases h g k with hk | ⟨hgo, hex, _⟩
    · exact ⟨hk.1, hk.2.1, hk.2.2.1, hk.2.2.2.1, hk.2.2.2.2.1, hk.2.2.2.2.2.1,
        hk.2.2.2.2.2.2.1, hk.2.2.2.2.2.2.2.1⟩
    · exact absurd ⟨hgo, hex⟩ hn

/-- Witness for C19: the state reached from the fresh game of the 1024 x 768
host by one `handleInput` call and one `update` of two seconds. -/
theorem Reachable.flag_phases_witness :
    (((demoGame.handleInput demoHost onlyR).update demoHost 2).isExplosionAnimation = true →
      ((demoGame.handleInput demoHost onlyR).update demoHost 2).isGameOver = true) ∧
    ((((demoGame.handleInput demoHost onlyR).update demoHost 2).isGameOver = false ∧
        ((demoGame.handleInput demoHost onlyR).update demoHost 2).isExplosionAnimation = false) ∨
      (((demoGame.handleInput demoHost onlyR).update demoHost 2).isGameOver = true ∧
        ((demoGame.handleInput demoHost onlyR).update demoHost 2).isExplosionAnimation = true) ∨
      (((demoGame.handleInput demoHost onlyR).update demoHost 2).isGameOver = true ∧
        ((demoGame.handleInput demoHost onlyR).update demoHost 2).isExplosionAnimation = false)) :=
  ⟨(Reachable.flag_phases demoHost _
      (Reachable.update 2 (Reachable.handleInput onlyR (Reachable.init 0 0 (fun _ => 0))))).1,
   (Reachable.flag_phases demoHost _
      (Reachable.update 2 (Reachable.handleInput onlyR (Reachable.init 0 0 (fun _ => 0))))).2.1⟩

/-- C20: in every state reachable from the constructor by `handleInput` and
`update` calls, the score is not negative, the bonus list holds at most one
bonus and the enemy list at most `score / 5 + 1` enemies (floor division);
and after every `update` tick that ends in the playing phase the bonus list
holds exactly one bonus. -/
theorem Reachable.population (h : Host) (g : Game) (hr : Reachable h g) :
    0 ≤ g.score ∧ g.bonuses.length ≤ 1 ∧ (g.enemies.length : Int) ≤ g.score / 5 + 1 ∧
    (∀ dt : ℚ, (g.update h dt).isGameOver = false →
      (g.update h dt).isExplosionAnimation = false → (g.update h dt).bonuses.length = 1) := by
  obtain ⟨hc1, hc2, hc3, hc4⟩ := Reachable.consistent h g hr
  refine ⟨hc2, hc3, hc4, ?_⟩
  intro dt hgo2 hex2
  cases hex : g.isExplosionAnimation
  · cases hgo : g.isGameOver
    · cases hl : (enemyLoop h (g.player.update h dt) dt g.enemies).2 with
      | none =>
        rw [Game.update_alive h g dt hgo hex hl]
        rw [(Game.finishTick_counts h (g.afterLoops h dt) dt).1]
        have hn := (Game.afterLoops_counts h g dt hl).1
        split_ifs <;> omega
      | some e =>
        have hd := (Game.update_death_fields h g dt e hgo hex hl).1
        rw [hd] at hgo2
        exact absurd hgo2 (by decide)
    · rw [Game.update_terminal h g dt hgo hex] at hgo2
      rw [hgo] at hgo2
      exact absurd hgo2 (by decide)
  · have hgo := hc1 hex
    have hk : (g.update h dt).isGameOver = g.isGameOver := by
      rw [Game.update_animation h g dt hex]
      split_ifs <;> rfl
    rw [hk, hgo] at hgo2
    exact absurd hgo2 (by decide)

/-- Witness for C20: the state reached from the fresh game of the 1024 x 768
host by one `update` of one sixtieth of a second. -/
theorem Reachable.population_witness :
    0 ≤ (demoGame.update demoHost (1 / 60)).score ∧
    (demoGame.update demoHost (1 / 60)).bonuses.length ≤ 1 ∧
    ((demoGame.update demoHost (1 / 60)).enemies.length : Int) ≤
      (demoGame.update demoHost (1 / 60)).score / 5 + 1 ∧
    (∀ dt : ℚ, ((demoGame.update demoHost (1 / 60)).update demoHost dt).isGameOver = false →
      ((demoGame.update demoHost (1 / 60)).update demoHost dt).isExplosionAnimation = false →
      ((demoGame.update demoHost (1 / 60)).update demoHost dt).bonuses.length = 1) :=
  Reachable.population demoHost (demoGame.update demoHost (1 / 60))
    (Reachable.update (1 / 60) (Reachable.init 0 0 (fun _ => 0)))

/-! ## Frame buffer writes -/

/-- A pixel index lies in `[0, SCREEN_WIDTH * SCREEN_HEIGHT)`. -/
theorem isPixelIndex_range (h : Host) (i : Int) (hi : isPixelIndex h i) :
    0 ≤ i ∧ i < h.SCREEN_WIDTH * h.SCREEN_HEIGHT := by
  obtain ⟨px, py, h1, h2, h3, h4, rfl⟩ := hi
  constructor
  · nlinarith
  · nlinarith

/-- A loop whose body keeps a property keeps it. -/
theorem foldl_keeps {α β : Type} (P : β → Prop) (f : β → α → β)
    (hf : ∀ b a, P b → P (f b a)) (l : List α) (b : β) (hb : P b) : P (l.foldl f b) := by
  induction l generalizing b with
  | nil => exact hb
  | cons a rest ih => exact ih (f b a) (hf b a hb)

theorem paintsWithin_refl (h : Host) (color : Nat) (b : Buffer) : paintsWithin h color b b :=
  fun _ hi => absurd rfl hi

/-- A guarded write stays within the pixels. -/
theorem paintsWithin_write (h : Host) (color : Nat) (b0 b : Buffer) (px py : Int)
    (hb : paintsWithin h color b0 b)
    (hg : px ≥ 0 ∧ px < h.SCREEN_WIDTH ∧ py ≥ 0 ∧ py < h.SCREEN_HEIGHT) :
    paintsWithin h color b0 (b.write (py * h.SCREEN_WIDTH + px) color) := by
  intro i hi
  unfold Buffer.write at hi ⊢
  by_cases hc : i = py * h.SCREEN_WIDTH + px
  · simp only [hc, if_true]
    exact ⟨⟨px, py, hg.1, hg.2.1, hg.2.2.1, hg.2.2.2, rfl⟩, trivial⟩
  · simp only [hc, if_false] at hi ⊢
    exact hb i hi

/-- The function `drawSquare` writes `color` at pixel indices only. -/
theorem drawSquare_within (h : Host) (b0 b : Buffer) (cx cy halfSize : Int) (color : Nat)
    (hb : paintsWithin h color b0 b) :
    paintsWithin h color b0 (drawSquare h b cx cy halfSize color) := by
  unfold drawSquare
  apply foldl_keeps (paintsWithin h color b0) _ _ _ _ hb
  intro b1 y hb1
  apply foldl_keeps (paintsWithin h color b0) _ _ _ _ hb1
  intro b2 x hb2
  simp only []
  split_ifs with hg
  · exact paintsWithin_write h color b0 b2 _ _ hb2 hg
  · exact hb2

/-- The function `drawCircle` writes `color` at pixel indices only. -/
theorem drawCircle_within (h : Host) (b0 b : Buffer) (cx cy radius : Int) (color : Nat)
    (hb : paintsWithin h color b0 b) :
    paintsWithin h color b0 (drawCircle h b cx cy radius color) := by
  unfold drawCircle
  apply foldl_keeps (paintsWithin h color b0) _ _ _ _ hb
  intro b1 y hb1
  apply foldl_keeps (paintsWithin h color b0) _ _ _ _ hb1
  intro b2 x hb2
  simp only []
  split_ifs with hin hg
  · exact paintsWithin_write h color b0 b2 _ _ hb2 hg
  · exact hb2
  · exact hb2

/-- The function `drawDigit` writes `color` at pixel indices only. -/
theorem drawDigit_within (h : Host) (b0 b : Buffer) (x y : Int) (digit : Char) (scale : Int)
    (color : Nat) (hb : paintsWithin h color b0 b) :
    paintsWithin h color b0 (drawDigit h b x y digit scale color) := by
  unfold drawDigit
  simp only []
  apply foldl_keeps (paintsWithin h color b0) _ _ _ _ hb
  intro b1 i hb1
  apply foldl_keeps (paintsWithin h color b0) _ _ _ _ hb1
  intro b2 j hb2
  split_ifs
  · exact drawSquare_within h b0 b2 _ _ _ color hb2
  · exact hb2

/-- The loop of `drawText` is the sequence of `drawDigit` calls listed by
`drawTextCalls`. -/
theorem drawText_calls (h : Host) (y scale : Int) (color : Nat) (text : List Char)
    (buffer : Buffer) (x : Int) :
    drawText h buffer x y text scale color =
      (drawTextCalls x scale text).foldl
        (fun b a => drawDigit h b a.1 y a.2 scale color) buffer := by
  unfold drawText
  induction text generalizing buffer x with
  | nil => rfl
  | cons c rest ih =>
    rw [List.foldl_cons]
    unfold drawTextCalls
    rw [List.foldl_append]
    by_cases hc : '0' ≤ c ∧ c ≤ '9'
    · simp only [hc, and_self, if_true, List.foldl_cons, List.foldl_nil]
      exact ih _ _
    · simp only [hc, if_false, List.foldl_nil]
      exact ih _ _

/-- Every call listed by `drawTextCalls` has a decimal digit as its character. -/
theorem drawTextCalls_digits (scale : Int) (text : List Char) (x : Int) :
    ∀ a ∈ drawTextCalls x scale text, '0' ≤ a.2 ∧ a.2 ≤ '9' := by
  induction text generalizing x with
  | nil => intro a ha; exact absurd ha (List.not_mem_nil a)
  | cons c rest ih =>
    intro a ha
    unfold drawTextCalls at ha
    rcases List.mem_append.mp ha with hm | hm
    · by_cases hc : '0' ≤ c ∧ c ≤ '9'
      · rw [if_pos hc] at hm
        rw [List.mem_singleton.mp hm]
        exact hc
      · rw [if_neg hc] at hm
        exact absurd hm (List.not_mem_nil a)
    · exact ih _ a hm

/-- For a decimal digit the index `digit - '0'` lies in `0..9`. -/
theorem digit_index (c : Char) (h0 : '0' ≤ c) (h9 : c ≤ '9') :
    0 ≤ (c.toNat : Int) - (('0' : Char).toNat : Int) ∧
      (c.toNat : Int) - (('0' : Char).toNat : Int) ≤ 9 := by
  have h0n : ('0' : Char).toNat ≤ c.toNat := h0
  have h9n : c.toNat ≤ ('9' : Char).toNat := h9
  have e0 : ('0' : Char).toNat = 48 := rfl
  have e9 : ('9' : Char).toNat = 57 := rfl
  omega

/-- C14: every index that `drawCircle` and `drawSquare` write is
`py * SCREEN_WIDTH + px` with `0 ≤ px < SCREEN_WIDTH` and
`0 ≤ py < SCREEN_HEIGHT`, hence lies in `[0, SCREEN_WIDTH * SCREEN_HEIGHT)`,
and all other pixels are unchanged (the same holds for `drawDigit` and
`drawText`); and for every text, `drawText` is the sequence of `drawDigit`
calls on its characters in `'0'..'9'` only, for which the font index
`digit - '0'` lies in `0..9`, inside the 10 x 5 x 3 table. -/
theorem drawing_stays_in_bounds (h : Host) (buffer : Buffer) (color : Nat) :
    (∀ (cx cy radius : Int) (i : Int),
      drawCircle h buffer cx cy radius color i ≠ buffer i →
        (∃ px py : Int, 0 ≤ px ∧ px < h.SCREEN_WIDTH ∧ 0 ≤ py ∧ py < h.SCREEN_HEIGHT ∧
          i = py * h.SCREEN_WIDTH + px) ∧
        0 ≤ i ∧ i < h.SCREEN_WIDTH * h.SCREEN_HEIGHT ∧
        drawCircle h buffer cx cy radius color i = color) ∧
    (∀ (cx cy halfSize : Int) (i : Int),
      drawSquare h buffer cx cy halfSize color i ≠ buffer i →
        (∃ px py : Int, 0 ≤ px ∧ px < h.SCREEN_WIDTH ∧ 0 ≤ py ∧ py < h.SCREEN_HEIGHT ∧
          i = py * h.SCREEN_WIDTH + px) ∧
        0 ≤ i ∧ i < h.SCREEN_WIDTH * h.SCREEN_HEIGHT ∧
        drawSquare h buffer cx cy halfSize color i = color) ∧
    (∀ (x y scale : Int) (text : List Char),
      drawText h buffer x y text scale color =
        (drawTextCalls x scale text).foldl
          (fun b a => drawDigit h b a.1 y a.2 scale color) buffer ∧
      (∀ a ∈ drawTextCalls x scale text, '0' ≤ a.2 ∧ a.2 ≤ '9' ∧
        0 ≤ (a.2.toNat : Int) - (('0' : Char).toNat : Int) ∧
        (a.2.toNat : Int) - (('0' : Char).toNat : Int) ≤ 9) ∧
      (∀ i : Int, drawText h buffer x y text scale color i ≠ buffer i →
        0 ≤ i ∧ i < h.SCREEN_WIDTH * h.SCREEN_HEIGHT)) ∧
    (font.length = 10 ∧ ∀ glyph ∈ font, glyph.length = 5 ∧ ∀ row ∈ glyph, row.length = 3) := by
  refine ⟨?_, ?_, ?_, ?_⟩
  · intro cx cy radius i hi
    have hw := drawCircle_within h buffer buffer cx cy radius color
      (paintsWithin_refl h color buffer) i hi
    exact ⟨hw.1, (isPixelIndex_range h i hw.1).1, (isPixelIndex_range h i hw.1).2, hw.2⟩
  · intro cx cy halfSize i hi
    have hw := drawSquare_within h buffer buffer cx cy halfSize color
      (paintsWithin_refl h color buffer) i hi
    exact ⟨hw.1, (isPixelIndex_range h i hw.1).1, (isPixelIndex_range h i hw.1).2, hw.2⟩
  · intro x y scale text
    refine ⟨drawText_calls h y scale color text buffer x, ?_, ?_⟩
    · intro a ha
      have hd := drawTextCalls_digits scale text x a ha
      have hx := digit_index a.2 hd.1 hd.2
      exact ⟨hd.1, hd.2, hx.1, hx.2⟩
    · intro i hi
      rw [drawText_calls] at hi
      have hw : paintsWithin h color buffer
          ((drawTextCalls x scale text).foldl
            (fun b a => drawDigit h b a.1 y a.2 scale color) buffer) := by
        apply foldl_keeps (paintsWithin h color buffer) _ _ _ _ (paintsWithin_refl h color buffer)
        intro b a hb
        exact drawDigit_within h buffer b a.1 y a.2 scale color hb
      exact isPixelIndex_range h i (hw i hi).1
  · decide

/-- Witness for C14: a square of half size 10 drawn at the top left corner of
the 1024 x 768 screen paints pixel `(3, 2)`, whose index is below
`1024 * 768`. -/
theorem drawing_stays_in_bounds_witness :
    (∃ px py : Int, 0 ≤ px ∧ px < demoHost.SCREEN_WIDTH ∧ 0 ≤ py ∧
        py < demoHost.SCREEN_HEIGHT ∧ (2 * 1024 + 3 : Int) = py * demoHost.SCREEN_WIDTH + px) ∧
      0 ≤ (2 * 1024 + 3 : Int) ∧
      (2 * 1024 + 3 : Int) < demoHost.SCREEN_WIDTH * demoHost.SCREEN_HEIGHT ∧
      drawSquare demoHost (fun _ => 0) 0 0 10 7 (2 * 1024 + 3) = 7 :=
  (drawing_stays_in_bounds demoHost (fun _ => 0) 7).2.1 0 0 10 (2 * 1024 + 3) (by decide!)

/-! ## The explosion animation -/

/-- The shared particle list after the death sequence: the old list, then the
enemy's 20 particles, then the player's 100, all new ones with lifetime 1. -/
theorem Game.update_death_particles (h : Host) (g : Game) (dt : ℚ) (enemy : Enemy)
    (hgo : g.isGameOver = false) (hex : g.isExplosionAnimation = false)
    (hl : (enemyLoop h (g.player.update h dt) dt g.enemies).2 = some enemy) :
    ∃ new : List Particle, (g.update h dt).particles = g.particles ++ new ∧
      new.length = 120 ∧ ∀ p ∈ new, p.lifetime = 1 ∧ p.maxLifetime = 1 := by
  rw [Game.update_death h g dt enemy hgo hex hl]
  obtain ⟨red, hr1, _, hr3, hr4⟩ := Enemy.explode_red h enemy (g.particles, g.randCount)
  have hp := Game.explodePlayer_spec h
    { g with player := g.player.update h dt,
             enemies := (enemyLoop h (g.player.update h dt) dt g.enemies).1,
             particles := (enemy.explode h (g.particles, g.randCount)).1,
             randCount := (enemy.explode h (g.particles, g.randCount)).2,
             isGameOver := true, isExplosionAnimation := true }
  obtain ⟨⟨white, hw1, hw2, hw3⟩, _⟩ := hp
  simp only [] at hw1 hr1
  refine ⟨red ++ white, ?_, by simp [hr3, hw2], ?_⟩
  · show (Game.explodePlayer h _).particles = _
    rw [hw1, hr1, List.append_assoc]
  · intro p hp
    rcases List.mem_append.mp hp with hm | hm
    · exact ⟨(hr4 p hm).2.2.1, (hr4 p hm).2.2.2.1⟩
    · exact ⟨(hw3 p hm).2.2.1, (hw3 p hm).2.2.2⟩

/-- One `update` of a game-over state whose shared list is empty unless the
animation runs: the state keeps that shape, lifetimes drop by `dt`, the
animation flag is set exactly when particles are left, and those are alive. -/
theorem Game.animation_step (h : Host) (g : Game) (dt b : ℚ)
    (hgo : g.isGameOver = true)
    (hemp : g.isExplosionAnimation = false → g.particles = [])
    (hl : ∀ p ∈ g.particles, p.lifetime ≤ b) :
    (g.update h dt).isGameOver = true ∧
    ((g.update h dt).isExplosionAnimation = false → (g.update h dt).particles = []) ∧
    (∀ p ∈ (g.update h dt).particles, p.lifetime ≤ b - dt) ∧
    ((g.update h dt).isExplosionAnimation = true ↔ (g.update h dt).particles ≠ []) ∧
    (∀ p ∈ (g.update h dt).particles, 0 < p.lifetime) := by
  cases hex : g.isExplosionAnimation
  · rw [Game.update_terminal h g dt hgo hex]
    have he := hemp hex
    refine ⟨hgo, hemp, ?_, ?_, ?_⟩
    · intro p hp; rw [he] at hp; exact absurd hp (List.not_mem_nil p)
    · rw [hex, he]; simp
    · intro p hp; rw [he] at hp; exact absurd hp (List.not_mem_nil p)
  · rw [Game.update_animation h g dt hex]
    have hb : ∀ p ∈ advanceParticles g.particles dt, p.lifetime ≤ b - dt := by
      intro p hp
      unfold advanceParticles at hp
      obtain ⟨p0, hp0, rfl⟩ := List.mem_map.mp (List.mem_filter.mp hp).1
      have := hl p0 hp0
      show p0.lifetime - dt ≤ b - dt
      linarith
    have ha := advanceParticles_alive g.particles dt
    by_cases he : (advanceParticles g.particles dt).isEmpty = true
    · rw [if_pos he]
      have he2 : advanceParticles g.particles dt = [] := List.isEmpty_iff.mp he
      refine ⟨hgo, fun _ => he2, ?_, ?_, ?_⟩
      · intro p hp; exact hb p hp
      · simp [he2]
      · intro p hp; exact ha p hp
    · rw [if_neg he]
      have he2 : advanceParticles g.particles dt ≠ [] := fun hc => he (List.isEmpty_iff.mpr hc)
      refine ⟨hgo, ?_, ?_, ?_, ?_⟩
      · intro hc
        have : g.isExplosionAnimation = false := hc
        rw [hex] at this
        exact absurd this (by decide)
      · intro p hp; exact hb p hp
      · constructor
        · intro _; exact he2
        · intro _; exact hex
      · intro p hp; exact ha p hp

/-- A run of updates from such a state: the shape is kept, lifetimes have
dropped by the sum of the steps, and after at least one update the animation
flag is set exactly when particles are left, all of them alive. -/
theorem Game.animation_run (h : Host) (dts : List ℚ) (g : Game) (b : ℚ)
    (hgo : g.isGameOver = true)
    (hemp : g.isExplosionAnimation = false → g.particles = [])
    (hl : ∀ p ∈ g.particles, p.lifetime ≤ b) :
    (dts.foldl (Game.update h) g).isGameOver = true ∧
    ((dts.foldl (Game.update h) g).isExplosionAnimation = false →
      (dts.foldl (Game.update h) g).particles = []) ∧
    (∀ p ∈ (dts.foldl (Game.update h) g).particles, p.lifetime ≤ b - dts.sum) ∧
    (dts ≠ [] →
      ((dts.foldl (Game.update h) g).isExplosionAnimation = true ↔
        (dts.foldl (Game.update h) g).particles ≠ []) ∧
      (∀ p ∈ (dts.foldl (Game.update h) g).particles, 0 < p.lifetime)) := by
  induction dts generalizing g b with
  | nil =>
    refine ⟨hgo, hemp, ?_, fun hc => absurd rfl hc⟩
    simpa using hl
  | cons dt rest ih =>
    obtain ⟨s1, s2, s3, s4, s5⟩ := Game.animation_step h g dt b hgo hemp hl
    obtain ⟨r1, r2, r3, r4⟩ := ih (g.update h dt) (b - dt) s1 s2 s3
    rw [List.foldl_cons]
    refine ⟨r1, r2, ?_, ?_⟩
    · intro p hp
      have := r3 p hp
      rw [List.sum_cons]
      linarith
    · intro _
      by_cases hrest : rest = []
      · subst hrest
        exact ⟨s4, s5⟩
      · exact r4 hrest

/-! ## Bonus pickup -/

/-- The advance-and-prune loop distributes over concatenation. -/
theorem advanceParticles_append (ps qs : List Particle) (dt : ℚ) :
    advanceParticles (ps ++ qs) dt = advanceParticles ps dt ++ advanceParticles qs dt := by
  simp [advanceParticles]

/-- Particles that outlive the step are all kept. -/
theorem advanceParticles_all (ps : List Particle) (dt : ℚ)
    (hl : ∀ p ∈ ps, dt < p.lifetime) :
    advanceParticles ps dt = ps.map (fun p => p.update dt) := by
  unfold advanceParticles
  rw [List.filter_eq_self]
  intro p hp
  obtain ⟨p0, hp0, rfl⟩ := List.mem_map.mp hp
  have := hl p0 hp0
  have h2 : ¬ (p0.update dt).lifetime ≤ 0 := by
    show ¬ p0.lifetime - dt ≤ 0
    linarith
  simp [h2]

/-- The shared particle list after a pickup: 20 yellow particles of size 10
and lifetime 1 are appended at the position of the bonus. -/
theorem Game.pickup_particles (h : Host) (g : Game) (b : Bonus) :
    ∃ new : List Particle, (g.pickup h b).particles = g.particles ++ new ∧ new.length = 20 ∧
      ∀ p ∈ new, p.color = 0xFFFFFF00 ∧ p.initialSize = 10 ∧ p.lifetime = 1 ∧
        p.maxLifetime = 1 ∧ p.x = b.x ∧ p.y = b.y := by
  obtain ⟨new2, k1, _, k3, k4⟩ := Bonus.explode_yellow h b (g.particles, g.randCount)
  refine ⟨new2, ?_, k3, k4⟩
  unfold Game.pickup
  simp only []
  split_ifs
  · exact k1
  · exact k1

/-- The game after the loops of a tick with a single bonus. -/
theorem Game.afterLoops_single (h : Host) (g : Game) (dt : ℚ) (b : Bonus)
    (hb : g.bonuses = [b]) :
    ((g.player.update h dt).checkCollision h (toInt (b.update h dt).x)
        (toInt (b.update h dt).y) 10 = true →
      (g.afterLoops h dt).score = g.score + 1 ∧ (g.afterLoops h dt).bonuses = [] ∧
      ∃ new : List Particle, (g.afterLoops h dt).particles = g.particles ++ new ∧
        new.length = 20 ∧
        ∀ p ∈ new, p.color = 0xFFFFFF00 ∧ p.initialSize = 10 ∧ p.lifetime = 1 ∧
          p.maxLifetime = 1 ∧ p.x = (b.update h dt).x ∧ p.y = (b.update h dt).y) ∧
    ((g.player.update h dt).checkCollision h (toInt (b.update h dt).x)
        (toInt (b.update h dt).y) 10 = false →
      (g.afterLoops h dt).score = g.score ∧ (g.afterLoops h dt).particles = g.particles) := by
  constructor
  · intro hc
    unfold Game.afterLoops
    simp only [hb]
    unfold bonusLoop
    simp only [hc, if_true]
    unfold bonusLoop
    simp only []
    refine ⟨(Game.pickup_frame h _ _).2.2.2.2.2.2.2, by simp, ?_⟩
    exact Game.pickup_particles h _ _
  · intro hc
    unfold Game.afterLoops
    simp only [hb]
    unfold bonusLoop
    simp only [hc, if_false, Bool.false_eq_true]
    unfold bonusLoop
    exact ⟨rfl, rfl⟩

/-- When no bonus is left, the end of the tick spawns exactly one. -/
theorem Game.finishTick_spawns_bonus (h : Host) (g : Game) (dt : ℚ) (hb : g.bonuses = []) :
    ∃ fresh : Bonus, (Game.finishTick h g dt).bonuses = [fresh] ∧ fresh.speed = 100 ∧
      (fresh.y = ((h.SCREEN_HEIGHT - 1 : Int) : ℚ) ∨
        fresh.x = ((h.SCREEN_WIDTH - 1 : Int) : ℚ)) := by
  have key : ∀ g5 : Game, g5.bonuses = [] →
      ∃ fresh : Bonus,
        (if sizeLtInt (g5.addBonus h).enemies.length (Int.tdiv (g5.addBonus h).score 5 + 1) = true
          then (g5.addBonus h).addEnemy h else g5.addBonus h).bonuses = [fresh] ∧
        fresh.speed = 100 ∧
        (fresh.y = ((h.SCREEN_HEIGHT - 1 : Int) : ℚ) ∨
          fresh.x = ((h.SCREEN_WIDTH - 1 : Int) : ℚ)) := by
    intro g5 h5
    obtain ⟨fresh, hf, h1, h2⟩ := Game.addBonus_spawn h g5
    refine ⟨fresh, ?_, h1, h2⟩
    split_ifs
    · rw [(Game.addEnemy_frame h _).2.1, hf, h5]; rfl
    · rw [hf, h5]; rfl
  unfold Game.finishTick
  simp only [Game.updateParticles, hb, List.length_nil, Nat.lt_one_iff, if_true]
  exact key _ rfl

/-- C16: in an `update(dt)` tick of a playing state with `dt < 1`, a single
bonus and no enemy collision: if the bonus, after being advanced, overlaps the
player (`checkCollision` on its truncated position with radius 10), the score
increases by exactly 1, the bonus list ends as one freshly spawned bonus
(speed 100, on the bottom or right edge), `isGameOver` stays false, and the
shared list ends as the old particles advanced and pruned, followed by exactly
20 new particles, created yellow (0xFFFFFF00) with size 10 and lifetime 1 at
the position of the bonus and advanced by this tick; if the bonus does not
overlap the player, the score is unchanged, `isGameOver` stays false and the
shared list is just the old particles advanced and pruned. -/
theorem Game.update_bonus_pickup (h : Host) (g : Game) (dt : ℚ) (b : Bonus)
    (hgo : g.isGameOver = false) (hex : g.isExplosionAnimation = false)
    (hno : ∀ e ∈ g.enemies, (g.player.update h dt).checkCollision h
      (toInt (e.update h dt).x) (toInt (e.update h dt).y) 10 = false)
    (hb : g.bonuses = [b]) (hdt : dt < 1) :
    ((g.player.update h dt).checkCollision h (toInt (b.update h dt).x)
        (toInt (b.update h dt).y) 10 = true →
      (g.update h dt).score = g.score + 1 ∧
      (∃ fresh : Bonus, (g.update h dt).bonuses = [fresh] ∧ fresh.speed = 100 ∧
        (fresh.y = ((h.SCREEN_HEIGHT - 1 : Int) : ℚ) ∨
          fresh.x = ((h.SCREEN_WIDTH - 1 : Int) : ℚ))) ∧
      (g.update h dt).isGameOver = false ∧
      ∃ new : List Particle, new.length = 20 ∧
        (∀ p ∈ new, p.color = 0xFFFFFF00 ∧ p.initialSize = 10 ∧ p.lifetime = 1 ∧
          p.maxLifetime = 1 ∧ p.x = (b.update h dt).x ∧ p.y = (b.update h dt).y) ∧
        (g.update h dt).particles =
          advanceParticles g.particles dt ++ new.map (fun p => p.update dt)) ∧
    ((g.player.update h dt).checkCollision h (toInt (b.update h dt).x)
        (toInt (b.update h dt).y) 10 = false →
      (g.update h dt).score = g.score ∧ (g.update h dt).isGameOver = false ∧
      (g.update h dt).particles = advanceParticles g.particles dt) := by
  have hl := enemyLoop_eq_none h (g.player.update h dt) dt g.enemies hno
  rw [Game.update_alive h g dt hgo hex hl]
  have hf := Game.finishTick_frame h (g.afterLoops h dt) dt
  have ha := Game.afterLoops_frame h g dt
  have hs := Game.afterLoops_single h g dt b hb
  have hover : (Game.finishTick h (g.afterLoops h dt) dt).isGameOver = false := by
    rw [hf.2.2.1, ha.2.2.1, hgo]
  constructor
  · intro hc
    obtain ⟨s1, s2, new, s3, s4, s5⟩ := hs.1 hc
    refine ⟨by rw [hf.2.2.2.2.1, s1], Game.finishTick_spawns_bonus h _ dt s2, hover,
      new, s4, s5, ?_⟩
    rw [hf.2.2.2.2.2.2.2, s3, advanceParticles_append, advanceParticles_all new dt]
    intro p hp
    rw [(s5 p hp).2.2.1]
    exact hdt
  · intro hc
    obtain ⟨s1, s2⟩ := hs.2 hc
    exact ⟨by rw [hf.2.2.2.2.1, s1], hover, by rw [hf.2.2.2.2.2.2.2, s2]⟩

/-- Witness for C16: on the 1024 x 768 host, `demoBonus` rests on sphere 1 of
the player; a tick of length 0 picks it up and the score goes from 4 to 5. -/
theorem Game.update_bonus_pickup_witness :
    (pickupGame.update demoHost 0).score = pickupGame.score + 1 ∧
    (∃ fresh : Bonus, (pickupGame.update demoHost 0).bonuses = [fresh] ∧ fresh.speed = 100 ∧
      (fresh.y = ((demoHost.SCREEN_HEIGHT - 1 : Int) : ℚ) ∨
        fresh.x = ((demoHost.SCREEN_WIDTH - 1 : Int) : ℚ))) ∧
    (pickupGame.update demoHost 0).isGameOver = false ∧
    ∃ new : List Particle, new.length = 20 ∧
      (∀ p ∈ new, p.color = 0xFFFFFF00 ∧ p.initialSize = 10 ∧ p.lifetime = 1 ∧
        p.maxLifetime = 1 ∧ p.x = (demoBonus.update demoHost 0).x ∧
        p.y = (demoBonus.update demoHost 0).y) ∧
      (pickupGame.update demoHost 0).particles =
        advanceParticles pickupGame.particles 0 ++ new.map (fun p => p.update 0) :=
  (Game.update_bonus_pickup demoHost pickupGame 0 demoBonus rfl rfl (by decide!) rfl
    (by decide!)).1 (by decide!)

/-! ## Spawning policy -/

/-- Pickups that reach no multiple of 5 leave background and palette index. -/
theorem Game.pickups_no_milestone (h : Host) (bs : List Bonus) (g : Game)
    (hs : 0 ≤ g.score) (hlt : g.score % 5 + bs.length < 5) :
    (bs.foldl (fun g b => g.pickup h b) g).backgroundColor = g.backgroundColor ∧
    (bs.foldl (fun g b => g.pickup h b) g).colorIndex = g.colorIndex ∧
    (bs.foldl (fun g b => g.pickup h b) g).score = g.score + bs.length := by
  induction bs generalizing g with
  | nil => simp
  | cons b rest ih =>
    have hsc : (g.pickup h b).score = g.score + 1 := (Game.pickup_frame h g b).2.2.2.2.2.2.2
    have hlen : ((b :: rest).length : Int) = (rest.length : Int) + 1 := by simp
    rw [hlen] at hlt
    have hnd : ¬ (5 : Int) ∣ g.score + 1 := by omega
    obtain ⟨p1, p2⟩ := (Game.pickup_palette h g b).2 hnd
    have := ih (g.pickup h b) (by rw [hsc]; omega) (by rw [hsc]; omega)
    obtain ⟨i1, i2, i3⟩ := this
    rw [List.foldl_cons, i1, i2, i3, p1, p2, hsc, hlen]
    exact ⟨rfl, rfl, by ring⟩

/-- The first milestone after a reset shows the palette entry at the index
that the reset found. -/
theorem Game.milestone_after_reset (h : Host) (g : Game) (bs : List Bonus) (b5 : Bonus)
    (hlen : bs.length = 4) :
    (bs.foldl (fun g b => g.pickup h b) (g.resetGame h)).backgroundColor = 0xFF808080 ∧
    ((bs.foldl (fun g b => g.pickup h b) (g.resetGame h)).pickup h b5).backgroundColor =
      colors.getD g.colorIndex 0 := by
  obtain ⟨_, _, _, rc, _, rs, _, rb, _⟩ := Game.resetGame_fields h g
  obtain ⟨n1, n2, n3⟩ := Game.pickups_no_milestone h bs (g.resetGame h) (by rw [rs])
    (by rw [rs, hlen]; decide)
  refine ⟨by rw [n1, rb], ?_⟩
  have hd : (5 : Int) ∣ (bs.foldl (fun g b => g.pickup h b) (g.resetGame h)).score + 1 := by
    rw [n3, rs, hlen]; decide
  rw [((Game.pickup_palette h _ b5).1 hd).2, n2, rc]

/-- C18 (as amended): `resetGame` leaves `player.angle`,
`player.rotateClockwise`, the player's trail list, `spacePressed`,
`isExplosionAnimation` and the palette index of `changeBackgroundColor` exactly
as they were, so `changeBackgroundColor` shows the same entry and moves to the
same index with or without a reset in between.  When a milestone pickup showed
palette entry `colorIndex` and the game is then reset, the background is the
reset grey until the score reaches 5, and that fifth pickup shows the entry
that cyclically follows: entry `(colorIndex + 1) % 5`, which is not the first
entry unless the last entry shown was the fifth one. -/
theorem Game.resetGame_keeps_palette (h : Host) (g : Game) :
    (g.resetGame h).player.angle = g.player.angle ∧
    (g.resetGame h).player.rotateClockwise = g.player.rotateClockwise ∧
    (g.resetGame h).player.particles = g.player.particles ∧
    (g.resetGame h).spacePressed = g.spacePressed ∧
    (g.resetGame h).isExplosionAnimation = g.isExplosionAnimation ∧
    (g.resetGame h).colorIndex = g.colorIndex ∧
    (g.resetGame h).changeBackgroundColor.backgroundColor =
      g.changeBackgroundColor.backgroundColor ∧
    (g.resetGame h).changeBackgroundColor.colorIndex = g.changeBackgroundColor.colorIndex ∧
    (∀ (b : Bonus) (bs : List Bonus) (b5 : Bonus),
      (5 : Int) ∣ g.score + 1 → g.colorIndex < 5 → bs.length = 4 →
      (g.pickup h b).backgroundColor = colors.getD g.colorIndex 0 ∧
      (bs.foldl (fun g b => g.pickup h b) ((g.pickup h b).resetGame h)).backgroundColor =
        0xFF808080 ∧
      ((bs.foldl (fun g b => g.pickup h b) ((g.pickup h b).resetGame h)).pickup h
          b5).backgroundColor = colors.getD ((g.colorIndex + 1) % 5) 0 ∧
      (g.colorIndex ≠ 4 →
        ((bs.foldl (fun g b => g.pickup h b) ((g.pickup h b).resetGame h)).pickup h
          b5).backgroundColor ≠ colors.getD 0 0) ∧
      (g.colorIndex = 4 →
        ((bs.foldl (fun g b => g.pickup h b) ((g.pickup h b).resetGame h)).pickup h
          b5).backgroundColor = colors.getD 0 0)) := by
  obtain ⟨rp, rsp, rex, rc, _⟩ := Game.resetGame_fields h g
  refine ⟨by rw [rp], by rw [rp], by rw [rp], rsp, rex, rc, ?_, ?_, ?_⟩
  · show colors.getD (g.resetGame h).colorIndex 0 = colors.getD g.colorIndex 0
    rw [rc]
  · show ((g.resetGame h).colorIndex + 1) % colors.length = (g.colorIndex + 1) % colors.length
    rw [rc]
  · intro b bs b5 hd hc hlen
    obtain ⟨p1, p2⟩ := (Game.pickup_palette h g b).1 hd
    obtain ⟨m1, m2⟩ := Game.milestone_after_reset h (g.pickup h b) bs b5 hlen
    rw [p1] at m2
    refine ⟨p2, m1, m2, ?_, ?_⟩
    · intro h4
      rw [m2]
      have hlt : g.colorIndex < 4 := by omega
      interval_cases g.colorIndex <;> decide
    · intro h4
      rw [m2, h4]

/-- Witness for C18: `pickupGame` has score 4 and palette index 0; the pickup
shows the first entry, and after a reset the fifth pickup shows the second. -/
theorem Game.resetGame_keeps_palette_witness :
    (pickupGame.pickup demoHost demoBonus).backgroundColor = 0xFF0C486C ∧
    (([demoBonus, demoBonus, demoBonus, demoBonus].foldl (fun g b => g.pickup demoHost b)
        ((pickupGame.pickup demoHost demoBonus).resetGame demoHost)).pickup demoHost
          demoBonus).backgroundColor = 0xFF3B8787 :=
  ⟨((Game.resetGame_keeps_palette demoHost pickupGame).2.2.2.2.2.2.2.2 demoBonus
      [demoBonus, demoBonus, demoBonus, demoBonus] demoBonus (by decide!) (by decide!) rfl).1,
   ((Game.resetGame_keeps_palette demoHost pickupGame).2.2.2.2.2.2.2.2 demoBonus
      [demoBonus, demoBonus, demoBonus, demoBonus] demoBonus (by decide!) (by decide!)
      rfl).2.2.1⟩

/-- Counterexample to C18 as stated: in `wrapGame` the palette index is 4, so
the milestone pickup shows the fifth palette entry; after the reset the next
milestone shows the entry that follows it cyclically, and that is the first
entry of the palette. -/
theorem Game.reset_then_first_entry :
    (5 : Int) ∣ wrapGame.score + 1 ∧ wrapGame.colorIndex = 4 ∧
    (wrapGame.pickup demoHost demoBonus).backgroundColor = colors.getD 4 0 ∧
    (([demoBonus, demoBonus, demoBonus, demoBonus].foldl (fun g b => g.pickup demoHost b)
        ((wrapGame.pickup demoHost demoBonus).resetGame demoHost)).pickup demoHost
          demoBonus).backgroundColor = colors.getD 0 0 ∧
    colors.getD 0 0 = 0xFF0C486C ∧ colors.head? = some 0xFF0C486C := by
  have hd : (5 : Int) ∣ wrapGame.score + 1 := by decide!
  obtain ⟨p1, p2⟩ := (Game.pickup_palette demoHost wrapGame demoBonus).1 hd
  have m := (Game.milestone_after_reset demoHost (wrapGame.pickup demoHost demoBonus)
    [demoBonus, demoBonus, demoBonus, demoBonus] demoBonus rfl).2
  rw [p1] at m
  exact ⟨hd, rfl, p2, m, rfl, rfl⟩

/-! ## Binary floating-point rounding -/

/-- The function `pow2` is the integer power of two. -/
theorem pow2_eq (k : Int) : pow2 k = (2 : ℚ) ^ k := by
  unfold pow2
  split_ifs with hk
  · obtain ⟨n, rfl⟩ := Int.eq_ofNat_of_zero_le hk
    simp
  · push_neg at hk
    obtain ⟨n, hn⟩ := Int.eq_ofNat_of_zero_le (by omega : 0 ≤ -k)
    have hk2 : k = -(n : Int) := by omega
    subst hk2
    simp

/-- Powers of two are positive. -/
theorem pow2_pos (k : Int) : 0 < pow2 k := by
  rw [pow2_eq]
  positivity

/-- The fuel-bounded logarithm brackets its argument. -/
theorem log2Fuel_spec (fuel n : Nat) (hf : n ≤ fuel) (hn : n ≠ 0) :
    2 ^ log2Fuel fuel n ≤ n ∧ n < 2 ^ (log2Fuel fuel n + 1) := by
  induction fuel generalizing n with
  | zero => omega
  | succ fuel ih =>
    unfold log2Fuel
    split_ifs with h2
    · constructor
      · simp; omega
      · simp; omega
    · have hpos : n / 2 ≠ 0 := by omega
      have := ih (n / 2) (by omega) hpos
      obtain ⟨i1, i2⟩ := this
      constructor
      · rw [pow_succ]; omega
      · rw [pow_succ]; omega

/-- The binary logarithm brackets its argument. -/
theorem natLog2_spec (n : Nat) (hn : n ≠ 0) :
    2 ^ natLog2 n ≤ n ∧ n < 2 ^ (natLog2 n + 1) :=
  log2Fuel_spec n n le_rfl hn

/-- The binary exponent brackets the magnitude. -/
theorem binExp_spec (q : ℚ) (hq : q ≠ 0) :
    (2 : ℚ) ^ binExp q ≤ |q| ∧ |q| < (2 : ℚ) ^ (binExp q + 1) := by
  have hn : q.num.natAbs ≠ 0 := by
    intro hc
    exact hq (Rat.zero_of_num_zero (Int.natAbs_eq_zero.mp hc))
  have hd : q.den ≠ 0 := q.den_nz
  obtain ⟨n1, n2⟩ := natLog2_spec _ hn
  obtain ⟨d1, d2⟩ := natLog2_spec _ hd
  have habs : |q| = (q.num.natAbs : ℚ) / (q.den : ℚ) := by
    have h1 : |q| = |(q.num : ℚ)| / |(q.den : ℚ)| := by
      rw [← abs_div, Rat.num_div_den]
    rw [h1, Nat.abs_cast, Nat.cast_natAbs, Int.cast_abs]
  have hdpos : (0 : ℚ) < (q.den : ℚ) := by exact_mod_cast Nat.pos_of_ne_zero hd
  have n1q : (2 : ℚ) ^ (natLog2 q.num.natAbs) ≤ (q.num.natAbs : ℚ) := by exact_mod_cast n1
  have n2q : (q.num.natAbs : ℚ) < (2 : ℚ) ^ (natLog2 q.num.natAbs + 1) := by exact_mod_cast n2
  have d1q : (2 : ℚ) ^ (natLog2 q.den) ≤ (q.den : ℚ) := by exact_mod_cast d1
  have d2q : (q.den : ℚ) < (2 : ℚ) ^ (natLog2 q.den + 1) := by exact_mod_cast d2
  have two : (2 : ℚ) ≠ 0 := by norm_num
  -- lower and upper estimates of the quotient
  have lo : (2 : ℚ) ^ ((natLog2 q.num.natAbs : Int) - (natLog2 q.den : Int) - 1) ≤ |q| := by
    rw [habs, zpow_sub₀ two, zpow_sub₀ two, zpow_natCast, zpow_natCast, zpow_one,
      le_div_iff₀ hdpos]
    have hp : (0 : ℚ) < (2 : ℚ) ^ natLog2 q.den := by positivity
    have hp2 : (0 : ℚ) < (2 : ℚ) ^ natLog2 q.num.natAbs := by positivity
    rw [pow_succ] at d2q
    calc (2 : ℚ) ^ natLog2 q.num.natAbs / 2 ^ natLog2 q.den / 2 * (q.den : ℚ)
        ≤ (2 : ℚ) ^ natLog2 q.num.natAbs / 2 ^ natLog2 q.den / 2 * (2 ^ natLog2 q.den * 2) := by
          apply mul_le_mul_of_nonneg_left (le_of_lt d2q)
          positivity
      _ = (2 : ℚ) ^ natLog2 q.num.natAbs := by field_simp
      _ ≤ _ := n1q
  have hi : |q| < (2 : ℚ) ^ ((natLog2 q.num.natAbs : Int) - (natLog2 q.den : Int) + 1) := by
    rw [habs, zpow_add₀ two, zpow_sub₀ two, zpow_natCast, zpow_natCast, zpow_one,
      div_lt_iff₀ hdpos]
    have hp : (0 : ℚ) < (2 : ℚ) ^ natLog2 q.den := by positivity
    rw [pow_succ] at n2q
    calc (q.num.natAbs : ℚ) < 2 ^ natLog2 q.num.natAbs * 2 := n2q
      _ = (2 : ℚ) ^ natLog2 q.num.natAbs / 2 ^ natLog2 q.den * 2 * 2 ^ natLog2 q.den := by
          field_simp
      _ ≤ (2 : ℚ) ^ natLog2 q.num.natAbs / 2 ^ natLog2 q.den * 2 * (q.den : ℚ) := by
          apply mul_le_mul_of_nonneg_left d1q
          positivity
  unfold binExp
  simp only []
  split_ifs with ht
  · rw [pow2_eq] at ht
    exact ⟨ht, hi⟩
  · rw [pow2_eq] at ht
    push_neg at ht
    refine ⟨lo, ?_⟩
    rw [sub_add_cancel]
    exact ht

/-- A non-negative integer power of two is an integer. -/
theorem zpow_two_int (k : Int) (hk : 0 ≤ k) : ((2 : ℚ) ^ k) = (((2 : Int) ^ k.toNat : Int) : ℚ) := by
  obtain ⟨n, rfl⟩ := Int.eq_ofNat_of_zero_le hk
  simp

/-- Rounding an integer gives the integer. -/
theorem roundEven_intCast (n : Int) : roundEven (n : ℚ) = n := by
  unfold roundEven
  simp

/-- The rounded value is the floor or the floor plus one. -/
theorem roundEven_floor (r : ℚ) :
    ⌊r⌋ ≤ roundEven r ∧ roundEven r ≤ ⌊r⌋ + 1 ∧ (r = (⌊r⌋ : ℚ) → roundEven r = ⌊r⌋) := by
  unfold roundEven
  refine ⟨?_, ?_, ?_⟩
  · split_ifs <;> omega
  · split_ifs <;> omega
  · intro hr
    rw [if_pos]
    rw [← hr]
    norm_num

/-- Rounding to the nearest integer is monotone. -/
theorem roundEven_mono (r s : ℚ) (hrs : r ≤ s) : roundEven r ≤ roundEven s := by
  have hfl : ⌊r⌋ ≤ ⌊s⌋ := Int.floor_le_floor hrs
  rcases lt_or_eq_of_le hfl with hlt | heq
  · have h1 := (roundEven_floor r).2.1
    have h2 := (roundEven_floor s).1
    omega
  · unfold roundEven
    rw [← heq]
    split_ifs <;> first | omega | (exfalso; linarith)

/-- Rounding to the nearest integer commutes with negation. -/
theorem roundEven_neg (r : ℚ) : roundEven (-r) = -roundEven r := by
  by_cases hint : r = (⌊r⌋ : ℚ)
  · rw [hint, ← Int.cast_neg, roundEven_intCast, roundEven_intCast]
  · have h1 : (⌊r⌋ : ℚ) ≤ r := Int.floor_le r
    have h2 : r < (⌊r⌋ : ℚ) + 1 := Int.lt_floor_add_one r
    have h3 : (⌊r⌋ : ℚ) < r := lt_of_le_of_ne h1 (Ne.symm hint)
    have hfl : ⌊-r⌋ = -⌊r⌋ - 1 := by
      rw [Int.floor_eq_iff]
      push_cast
      constructor <;> linarith
    unfold roundEven
    rw [hfl]
    push_cast
    split_ifs <;> first | omega | (exfalso; linarith)

/-- Rounding never crosses an integer. -/
theorem roundEven_le_int (r : ℚ) (n : Int) (h : r ≤ (n : ℚ)) : roundEven r ≤ n := by
  have := roundEven_mono r n h
  rwa [roundEven_intCast] at this

/-- Rounding never crosses an integer, from below. -/
theorem int_le_roundEven (r : ℚ) (n : Int) (h : (n : ℚ) ≤ r) : n ≤ roundEven r := by
  have := roundEven_mono n r h
  rwa [roundEven_intCast] at this

/-- The binary exponent ignores the sign. -/
theorem binExp_neg (q : ℚ) : binExp (-q) = binExp q := by
  unfold binExp
  simp

/-- Binary rounding commutes with negation. -/
theorem roundBinary_neg (p : Nat) (emin : Int) (q : ℚ) :
    roundBinary p emin (-q) = -roundBinary p emin q := by
  unfold roundBinary
  by_cases hq : q = 0
  · simp [hq]
  · have hq2 : -q ≠ 0 := neg_ne_zero.mpr hq
    rw [if_neg hq, if_neg hq2, binExp_neg, neg_div, roundEven_neg]
    push_cast
    ring

/-- Binary rounding keeps the sign of a non-negative number. -/
theorem roundBinary_nonneg (p : Nat) (emin : Int) (q : ℚ) (hq : 0 ≤ q) :
    0 ≤ roundBinary p emin q := by
  unfold roundBinary
  split_ifs with h0
  · exact le_rfl
  · apply mul_nonneg _ (le_of_lt (pow2_pos _))
    have : (0 : Int) ≤ roundEven (q / pow2 (max (binExp q) emin - ((p : Int) - 1))) := by
      apply int_le_roundEven
      simp only [Int.cast_zero]
      exact div_nonneg hq (le_of_lt (pow2_pos _))
    exact_mod_cast this

/-- Binary rounding is monotone on the positive numbers. -/
theorem roundBinary_mono_pos (p : Nat) (emin : Int) (hp : 1 ≤ p) (x y : ℚ) (hx : 0 < x)
    (hxy : x ≤ y) : roundBinary p emin x ≤ roundBinary p emin y := by
  have hy : 0 < y := lt_of_lt_of_le hx hxy
  have hx0 : x ≠ 0 := ne_of_gt hx
  have hy0 : y ≠ 0 := ne_of_gt hy
  obtain ⟨x1, x2⟩ := binExp_spec x hx0
  obtain ⟨y1, y2⟩ := binExp_spec y hy0
  rw [abs_of_pos hx] at x1 x2
  rw [abs_of_pos hy] at y1 y2
  have one_lt : (1 : ℚ) < 2 := by norm_num
  have hexp : binExp x ≤ binExp y := by
    by_contra hc
    push_neg at hc
    have : (2 : ℚ) ^ (binExp y + 1) ≤ (2 : ℚ) ^ binExp x :=
      zpow_le_zpow_right₀ (le_of_lt one_lt) (by omega)
    linarith
  unfold roundBinary
  rw [if_neg hx0, if_neg hy0]
  simp only [pow2_eq]
  rcases lt_or_eq_of_le (max_le_max_right emin hexp) with hlt | heq
  · -- different grids: the power of two between them is on both
    have hcy : max (binExp y) emin = binExp y := by
      rcases le_total (binExp y) emin with hle | hle
      · exfalso
        rw [max_eq_right hle] at hlt
        have := le_max_right (binExp x) emin
        omega
      · exact max_eq_left hle
    rw [hcy] at hlt ⊢
    have hux : (0 : ℚ) < (2 : ℚ) ^ (max (binExp x) emin - ((p : Int) - 1)) := by positivity
    have huy : (0 : ℚ) < (2 : ℚ) ^ (binExp y - ((p : Int) - 1)) := by positivity
    have two : (2 : ℚ) ≠ 0 := by norm_num
    -- the bound `2 ^ binExp y`
    have hxB : x ≤ (2 : ℚ) ^ binExp y := by
      have h1 : (2 : ℚ) ^ (binExp x + 1) ≤ (2 : ℚ) ^ binExp y :=
        zpow_le_zpow_right₀ (le_of_lt one_lt) (by
          have := le_max_left (binExp x) emin
          omega)
      linarith
    have hk1 : 0 ≤ binExp y - (max (binExp x) emin - ((p : Int) - 1)) := by omega
    have hk2 : 0 ≤ binExp y - (binExp y - ((p : Int) - 1)) := by omega
    have e1 : (2 : ℚ) ^ binExp y / (2 : ℚ) ^ (max (binExp x) emin - ((p : Int) - 1)) =
        (((2 : Int) ^ (binExp y - (max (binExp x) emin - ((p : Int) - 1))).toNat : Int) : ℚ) := by
      rw [← zpow_sub₀ two, zpow_two_int _ hk1]
    have e2 : (2 : ℚ) ^ binExp y / (2 : ℚ) ^ (binExp y - ((p : Int) - 1)) =
        (((2 : Int) ^ (binExp y - (binExp y - ((p : Int) - 1))).toNat : Int) : ℚ) := by
      rw [← zpow_sub₀ two, zpow_two_int _ hk2]
    have r1 : roundEven (x / (2 : ℚ) ^ (max (binExp x) emin - ((p : Int) - 1))) ≤
        (2 : Int) ^ (binExp y - (max (binExp x) emin - ((p : Int) - 1))).toNat := by
      apply roundEven_le_int
      rw [← e1]
      exact div_le_div_of_nonneg_right hxB (le_of_lt hux)
    have r2 : (2 : Int) ^ (binExp y - (binExp y - ((p : Int) - 1))).toNat ≤
        roundEven (y / (2 : ℚ) ^ (binExp y - ((p : Int) - 1))) := by
      apply int_le_roundEven
      rw [← e2]
      exact div_le_div_of_nonneg_right y1 (le_of_lt huy)
    have r1q : (roundEven (x / (2 : ℚ) ^ (max (binExp x) emin - ((p : Int) - 1))) : ℚ) ≤
        (((2 : Int) ^ (binExp y - (max (binExp x) emin - ((p : Int) - 1))).toNat : Int) : ℚ) := by
      exact_mod_cast r1
    have r2q : (((2 : Int) ^ (binExp y - (binExp y - ((p : Int) - 1))).toNat : Int) : ℚ) ≤
        (roundEven (y / (2 : ℚ) ^ (binExp y - ((p : Int) - 1))) : ℚ) := by
      exact_mod_cast r2
    calc (roundEven (x / (2 : ℚ) ^ (max (binExp x) emin - ((p : Int) - 1))) : ℚ) *
          (2 : ℚ) ^ (max (binExp x) emin - ((p : Int) - 1))
        ≤ (((2 : Int) ^ (binExp y - (max (binExp x) emin - ((p : Int) - 1))).toNat : Int) : ℚ) *
          (2 : ℚ) ^ (max (binExp x) emin - ((p : Int) - 1)) :=
          mul_le_mul_of_nonneg_right r1q (le_of_lt hux)
      _ = (2 : ℚ) ^ binExp y := by rw [← e1]; field_simp
      _ = (((2 : Int) ^ (binExp y - (binExp y - ((p : Int) - 1))).toNat : Int) : ℚ) *
          (2 : ℚ) ^ (binExp y - ((p : Int) - 1)) := by rw [← e2]; field_simp
      _ ≤ _ := mul_le_mul_of_nonneg_right r2q (le_of_lt huy)
  · -- same grid
    rw [heq]
    have hu : (0 : ℚ) < (2 : ℚ) ^ (max (binExp y) emin - ((p : Int) - 1)) := by positivity
    apply mul_le_mul_of_nonneg_right _ (le_of_lt hu)
    have := roundEven_mono _ _ (div_le_div_of_nonneg_right hxy (le_of_lt hu))
    exact_mod_cast this

/-- Binary rounding is monotone. -/
theorem roundBinary_mono (p : Nat) (emin : Int) (hp : 1 ≤ p) (x y : ℚ) (hxy : x ≤ y) :
    roundBinary p emin x ≤ roundBinary p emin y := by
  rcases lt_trichotomy 0 x with hx | hx | hx
  · exact roundBinary_mono_pos p emin hp x y hx hxy
  · rw [← hx] at hxy ⊢
    have h0 : roundBinary p emin 0 = 0 := by simp [roundBinary]
    rw [h0]
    exact roundBinary_nonneg p emin y hxy
  · rcases le_or_lt 0 y with hy | hy
    · have h1 := roundBinary_nonneg p emin (-x) (by linarith)
      have h2 := roundBinary_nonneg p emin y hy
      rw [roundBinary_neg] at h1
      linarith
    · have := roundBinary_mono_pos p emin hp (-y) (-x) (by linarith) (by linarith)
      rw [roundBinary_neg, roundBinary_neg] at this
      linarith

/-- An integer of magnitude below `2 ^ p` is a value of the format. -/
theorem roundBinary_int (p : Nat) (emin : Int) (hmin : emin ≤ (p : Int) - 1) (n : Int)
    (hn : |n| < 2 ^ p) : roundBinary p emin (n : ℚ) = n := by
  unfold roundBinary
  split_ifs with h0
  · exact h0.symm
  · obtain ⟨s1, _⟩ := binExp_spec (n : ℚ) h0
    have one_lt : (1 : ℚ) < 2 := by norm_num
    have hnq : |(n : ℚ)| < (2 : ℚ) ^ (p : Int) := by
      rw [zpow_natCast]
      exact_mod_cast hn
    have hexp : binExp (n : ℚ) < (p : Int) := by
      by_contra hc
      push_neg at hc
      have : (2 : ℚ) ^ (p : Int) ≤ (2 : ℚ) ^ binExp (n : ℚ) :=
        zpow_le_zpow_right₀ (le_of_lt one_lt) hc
      linarith
    have hk : 0 ≤ -(max (binExp (n : ℚ)) emin - ((p : Int) - 1)) := by
      have := max_le (by omega : binExp (n : ℚ) ≤ (p : Int) - 1) hmin
      omega
    rw [pow2_eq]
    have two : (2 : ℚ) ≠ 0 := by norm_num
    have e1 : (n : ℚ) / (2 : ℚ) ^ (max (binExp (n : ℚ)) emin - ((p : Int) - 1)) =
        ((n * (2 : Int) ^ (-(max (binExp (n : ℚ)) emin - ((p : Int) - 1))).toNat : Int) : ℚ) := by
      rw [Int.cast_mul, ← zpow_two_int _ hk, zpow_neg]
      field_simp
    rw [e1, roundEven_intCast, Int.cast_mul, ← zpow_two_int _ hk, zpow_neg]
    field_simp

/-- Conversion to `float` is monotone. -/
theorem toFloat_mono (x y : ℚ) (hxy : x ≤ y) : toFloat x ≤ toFloat y :=
  roundBinary_mono 24 (-126) (by decide) x y hxy

/-- Integers of magnitude below `2 ^ 24` are `float` values. -/
theorem toFloat_int (n : Int) (hn : |n| < 2 ^ 24) : toFloat (n : ℚ) = n :=
  roundBinary_int 24 (-126) (by decide) n hn

/-- A `float` result stays on the same side of an integer bound below `2 ^ 24`. -/
theorem toFloat_le_int (x : ℚ) (n : Int) (hn : |n| < 2 ^ 24) (hx : x ≤ (n : ℚ)) :
    toFloat x ≤ (n : ℚ) := by
  have := toFloat_mono x n hx
  rwa [toFloat_int n hn] at this

/-- C1: evaluation of `Player::update` at inputs where the angle leaves
`[0, 2π)`.  The constructor-built player (angle 0, rotating clockwise) updated
once with `dt = 5` has angle `3 * M_PI` in exact arithmetic and 9.4247789 in
`float` arithmetic, both above `2π`: line 133 removes one turn only.  With
angle 0, rotating counter-clockwise, and `dt` the `float` nearest to `1e-9`,
line 132 gives a tiny negative angle and line 134 stores the `float` nearest
to `angle + 2π`, which is 6.2831855 and above `2π`. -/
theorem Player.update_angle_escapes :
    (0 ≤ (Player.init 512 384).angle ∧ (((Player.init 512 384).angle : ℚ) : ℝ) < 2 * Real.pi) ∧
      (Player.update demoHost (Player.init 512 384) 5).angle = 3 * M_PI ∧
      ¬ ((((Player.update demoHost (Player.init 512 384) 5).angle : ℚ) : ℝ) < 2 * Real.pi) ∧
      Player.nextAngleFloat 0 true 5 = 9882597 / 1048576 ∧
      ¬ (((Player.nextAngleFloat 0 true 5 : ℚ) : ℝ) < 2 * Real.pi) ∧
      Player.nextAngleFloat 0 false (toFloat (1 / 1000000000)) = 13176795 / 2097152 ∧
      ¬ (((Player.nextAngleFloat 0 false (toFloat (1 / 1000000000)) : ℚ) : ℝ) <
        2 * Real.pi) := by
  have e : (Player.update demoHost (Player.init 512 384) 5).angle = 3 * M_PI := by decide!
  have e5 : Player.nextAngleFloat 0 true 5 = 9882597 / 1048576 := by decide!
  have e9 : Player.nextAngleFloat 0 false (toFloat (1 / 1000000000)) = 13176795 / 2097152 := by
    decide!
  have hpi := Real.pi_lt_d20
  refine ⟨⟨by decide!, ?_⟩, e, ?_, e5, ?_, e9, ?_⟩
  · have e0 : (Player.init 512 384).angle = 0 := rfl
    rw [e0]; push_cast; have := Real.pi_pos; linarith
  · rw [e, not_lt]
    have h2 : (3 : ℝ) < ((M_PI : ℚ) : ℝ) := by
      have : (3 : ℚ) < M_PI := by unfold M_PI; norm_num
      exact_mod_cast this
    push_cast; linarith
  · rw [e5, not_lt]
    push_cast
    norm_num at hpi ⊢
    linarith
  · rw [e9, not_lt]
    push_cast
    norm_num at hpi ⊢
    linarith

/-! ## The explosion animation in float arithmetic -/

/-- A `float` difference that is not positive in exact arithmetic is not
positive after rounding. -/
theorem toFloat_nonpos (x : ℚ) (hx : x ≤ 0) : toFloat x ≤ 0 := by
  have := toFloat_le_int x 0 (by decide) (by simpa using hx)
  simpa using this

/-- One `update` of a game that is over, in `float` arithmetic: the call is
covered by the refinement, the game stays over, a static state is returned as
it is, and after an animation tick the flag is set exactly when the shared
list is not empty. -/
theorem Game.updateFloat_over (g : Game) (dt : ℚ) (hgo : g.isGameOver = true) :
    ∃ s : Game, g.updateFloat dt = some s ∧ s.isGameOver = true ∧
      (g.isExplosionAnimation = false → s = g) ∧
      (g.isExplosionAnimation = true →
        s.particles = advanceParticlesFloat g.particles dt ∧
        (s.isExplosionAnimation = true ↔ s.particles ≠ [])) := by
  unfold Game.updateFloat
  cases hex : g.isExplosionAnimation
  · refine ⟨g, by simp [hgo], hgo, fun _ => rfl, fun hc => absurd hc (by decide)⟩
  · simp only [hgo, Bool.not_true, Bool.and_false, Bool.false_eq_true, if_false, if_true]
    cases hps : advanceParticlesFloat g.particles dt with
    | nil =>
      refine ⟨_, rfl, ?_, fun hc => absurd hc (by decide), fun _ => ?_⟩
      · simp [hgo]
      · simp
    | cons p rest =>
      refine ⟨_, rfl, ?_, fun hc => absurd hc (by decide), fun _ => ?_⟩
      · simp [hgo]
      · simp [hex]

/-- A run of `update` calls from a game that is over, in `float` arithmetic:
every call is covered by the refinement, the game stays over, and once the
flag and the list agree they keep agreeing. -/
theorem Game.runFloat_over (dts : List ℚ) (g : Game) (hgo : g.isGameOver = true) :
    ∃ s : Game, g.runFloat dts = some s ∧ s.isGameOver = true ∧
      ((g.isExplosionAnimation = true ↔ g.particles ≠ []) →
        (s.isExplosionAnimation = true ↔ s.particles ≠ [])) ∧
      (g.isExplosionAnimation = true → dts ≠ [] →
        (s.isExplosionAnimation = true ↔ s.particles ≠ [])) := by
  induction dts generalizing g with
  | nil => exact ⟨g, rfl, hgo, fun hj => hj, fun _ hne => absurd rfl hne⟩
  | cons dt rest ih =>
    obtain ⟨s1, e1, g1, k1, k2⟩ := Game.updateFloat_over g dt hgo
    obtain ⟨s, e2, g2, j1, j2⟩ := ih s1 g1
    have hj : (g.isExplosionAnimation = true ↔ g.particles ≠ []) →
        (s1.isExplosionAnimation = true ↔ s1.particles ≠ []) := by
      intro hj
      cases hex : g.isExplosionAnimation
      · rw [k1 hex]; exact hj
      · exact (k2 hex).2
    refine ⟨s, ?_, g2, fun h0 => j1 (hj h0), fun hex _ => j1 (k2 hex).2⟩
    show (match g.updateFloat dt with
      | some g1 => g1.runFloat rest
      | none => none) = some s
    rw [e1]
    exact e2

/-- A shared particle whose rounded lifetime stays positive keeps the
animation running, in `float` arithmetic. -/
theorem Game.updateFloat_survives (g : Game) (dt l : ℚ) (hex : g.isExplosionAnimation = true)
    (hp : ∃ p ∈ g.particles, p.lifetime = l) (hpos : 0 < toFloat (l - dt)) :
    ∃ s : Game, g.updateFloat dt = some s ∧ s.isGameOver = g.isGameOver ∧
      s.isExplosionAnimation = true ∧ ∃ p ∈ s.particles, p.lifetime = toFloat (l - dt) := by
  obtain ⟨p, hm, hl⟩ := hp
  have hmem : p.updateFloat dt ∈ advanceParticlesFloat g.particles dt := by
    unfold advanceParticlesFloat
    rw [List.mem_filter]
    refine ⟨List.mem_map.mpr ⟨p, hm, rfl⟩, ?_⟩
    have : ¬ (p.updateFloat dt).lifetime ≤ 0 := by
      show ¬ toFloat (p.lifetime - dt) ≤ 0
      rw [hl]
      exact not_le.mpr hpos
    simp [this]
  have hne : (advanceParticlesFloat g.particles dt).isEmpty = false := by
    cases hps : advanceParticlesFloat g.particles dt with
    | nil => rw [hps] at hmem; cases hmem
    | cons q rest => rfl
  unfold Game.updateFloat
  simp only [hex, Bool.not_true, Bool.and_false, Bool.false_eq_true, if_false, if_true, hne]
  refine ⟨_, rfl, rfl, rfl, p.updateFloat dt, hmem, ?_⟩
  show toFloat (p.lifetime - dt) = toFloat (l - dt)
  rw [hl]

/-- A step that leaves the rounded lifetime of a shared particle unchanged
never ends the animation, however often it is repeated. -/
theorem Game.runFloat_stuck (n : Nat) (g : Game) (dt l : ℚ) (hex : g.isExplosionAnimation = true)
    (hp : ∃ p ∈ g.particles, p.lifetime = l) (hfix : toFloat (l - dt) = l) (hpos : 0 < l) :
    ∃ s : Game, g.runFloat (List.replicate n dt) = some s ∧
      s.isExplosionAnimation = true ∧ ∃ p ∈ s.particles, p.lifetime = l := by
  induction n generalizing g with
  | zero => exact ⟨g, rfl, hex, hp⟩
  | succ n ih =>
    obtain ⟨s1, e1, _, x1, p1⟩ := Game.updateFloat_survives g dt l hex hp (by rw [hfix]; exact hpos)
    rw [hfix] at p1
    obtain ⟨s, e2, x2, p2⟩ := ih s1 x1 p1
    refine ⟨s, ?_, x2, p2⟩
    show (match g.updateFloat dt with
      | some g1 => g1.runFloat (List.replicate n dt)
      | none => none) = some s
    rw [e1]
    exact e2

/-- One `update` with `dt ≥ 1` ends an animation whose shared particles have
lifetime at most 1, in `float` arithmetic. -/
theorem Game.updateFloat_long_step (g : Game) (dt : ℚ) (hex : g.isExplosionAnimation = true)
    (hl : ∀ p ∈ g.particles, p.lifetime ≤ 1) (hdt : 1 ≤ dt) :
    ∃ s : Game, g.updateFloat dt = some s ∧ s.isExplosionAnimation = false ∧
      s.particles = [] := by
  have hemp : advanceParticlesFloat g.particles dt = [] := by
    unfold advanceParticlesFloat
    rw [List.filter_eq_nil_iff]
    intro q hq
    obtain ⟨p, hm, rfl⟩ := List.mem_map.mp hq
    have : (p.updateFloat dt).lifetime ≤ 0 := by
      show toFloat (p.lifetime - dt) ≤ 0
      apply toFloat_nonpos
      have := hl p hm
      linarith
    simp [this]
  unfold Game.updateFloat
  simp only [hex, Bool.not_true, Bool.and_false, Bool.false_eq_true, if_false, if_true, hemp]
  exact ⟨_, rfl, rfl, rfl⟩

/-- C15 (as amended): the death sequence of a playing state whose shared
particles have lifetime at most 1 yields a state with `isGameOver` and
`isExplosionAnimation` set and all shared lifetimes at most 1.  From every
state with both flags set and for every sequence of `dt` values, in exact
arithmetic and in `float` arithmetic alike: the game stays over, after each
`update` the animation flag is set exactly when the shared list is still
non-empty, and once the flag is clear no further `update` changes the state.
A single `update` with `dt ≥ 1` always ends the animation when the shared
lifetimes are at most 1. -/
theorem Game.animation_until_empty (h : Host) :
    (∀ (g : Game) (dt : ℚ), g.isGameOver = false → g.isExplosionAnimation = false →
      (∃ e ∈ g.enemies, (g.player.update h dt).checkCollision h
        (toInt (e.update h dt).x) (toInt (e.update h dt).y) 10 = true) →
      (∀ p ∈ g.particles, p.lifetime ≤ 1) →
      (g.update h dt).isGameOver = true ∧ (g.update h dt).isExplosionAnimation = true ∧
      ∀ p ∈ (g.update h dt).particles, p.lifetime ≤ 1) ∧
    (∀ g : Game, g.isGameOver = true → g.isExplosionAnimation = true →
      ∀ dts : List ℚ,
        (dts.foldl (Game.update h) g).isGameOver = true ∧
        (dts ≠ [] →
          ((dts.foldl (Game.update h) g).isExplosionAnimation = true ↔
            (dts.foldl (Game.update h) g).particles ≠ [])) ∧
        ((dts.foldl (Game.update h) g).isExplosionAnimation = false →
          ∀ dt : ℚ, (dts.foldl (Game.update h) g).update h dt = dts.foldl (Game.update h) g)) ∧
    (∀ g : Game, g.isGameOver = true → g.isExplosionAnimation = true →
      ∀ dts : List ℚ, ∃ s : Game, g.runFloat dts = some s ∧ s.isGameOver = true ∧
        (dts ≠ [] → (s.isExplosionAnimation = true ↔ s.particles ≠ [])) ∧
        (s.isExplosionAnimation = false → ∀ dt : ℚ, s.updateFloat dt = some s)) ∧
    (∀ (g : Game) (dt : ℚ), g.isGameOver = true → g.isExplosionAnimation = true →
      (∀ p ∈ g.particles, p.lifetime ≤ 1) → 1 ≤ dt →
      ((g.update h dt).isExplosionAnimation = false ∧ (g.update h dt).particles = []) ∧
      ∃ s : Game, g.updateFloat dt = some s ∧ s.isExplosionAnimation = false ∧
        s.particles = []) := by
  refine ⟨?_, ?_, ?_, ?_⟩
  · intro g dt hgo hex hcol hl
    have hsome := (enemyLoop_isSome_iff h (g.player.update h dt) dt g.enemies).mpr hcol
    obtain ⟨enemy, hen⟩ := Option.isSome_iff_exists.mp hsome
    obtain ⟨f1, f2, _⟩ := Game.update_death_fields h g dt enemy hgo hex hen
    obtain ⟨new, hn1, _, hn3⟩ := Game.update_death_particles h g dt enemy hgo hex hen
    refine ⟨f1, f2, ?_⟩
    intro p hp
    rw [hn1] at hp
    rcases List.mem_append.mp hp with hm | hm
    · exact hl p hm
    · rw [(hn3 p hm).1]
  · intro g hgo hex dts
    have hemp : g.isExplosionAnimation = false → g.particles = [] := by
      intro hc; rw [hex] at hc; exact absurd hc (by decide)
    have hb : ∃ b : ℚ, ∀ p ∈ g.particles, p.lifetime ≤ b := by
      generalize g.particles = ps
      induction ps with
      | nil => exact ⟨0, fun p hp => by cases hp⟩
      | cons q rest ih =>
        obtain ⟨b, hb⟩ := ih
        refine ⟨max b q.lifetime, fun p hp => ?_⟩
        rcases List.mem_cons.mp hp with rfl | hm
        · exact le_max_right _ _
        · exact le_trans (hb p hm) (le_max_left _ _)
    obtain ⟨b, hb⟩ := hb
    obtain ⟨r1, _, _, r4⟩ := Game.animation_run h dts g b hgo hemp hb
    exact ⟨r1, fun hne => (r4 hne).1, fun hflag dt => Game.update_terminal h _ dt r1 hflag⟩
  · intro g hgo hex dts
    obtain ⟨s, e, g2, _, j2⟩ := Game.runFloat_over dts g hgo
    refine ⟨s, e, g2, fun hne => j2 hex hne, ?_⟩
    intro hflag dt
    obtain ⟨s2, e2, _, k1, _⟩ := Game.updateFloat_over s dt g2
    rw [e2, k1 hflag]
  · intro g dt hgo hex hl hdt
    have hemp : g.isExplosionAnimation = false → g.particles = [] := by
      intro hc; rw [hex] at hc; exact absurd hc (by decide)
    obtain ⟨_, s2, s3, s4, s5⟩ := Game.animation_step h g dt 1 hgo hemp hl
    have hnil : (g.update h dt).particles = [] := by
      cases hps : (g.update h dt).particles with
      | nil => rfl
      | cons p rest =>
        have hm : p ∈ (g.update h dt).particles := by rw [hps]; simp
        have h1 := s3 p hm
        have h2 := s5 p hm
        linarith
    have hflag : (g.update h dt).isExplosionAnimation = false := by
      cases hv : (g.update h dt).isExplosionAnimation
      · rfl
      · exact absurd hnil (s4.mp hv)
    exact ⟨⟨hflag, hnil⟩, Game.updateFloat_long_step g dt hex hl hdt⟩

/-- Witness for C15: the state right after the death sequence of `deathGame`.
In `float` arithmetic two steps of half a second end its animation, and so
does a single step of one second. -/
theorem Game.animation_until_empty_witness :
    (∃ s : Game, (deathGame.update demoHost 0).runFloat [1 / 2, 1 / 2] = some s ∧
      s.isGameOver = true ∧
      (([1 / 2, 1 / 2] : List ℚ) ≠ [] → (s.isExplosionAnimation = true ↔ s.particles ≠ [])) ∧
      (s.isExplosionAnimation = false → ∀ dt : ℚ, s.updateFloat dt = some s)) ∧
    (((deathGame.update demoHost 0).update demoHost 1).isExplosionAnimation = false ∧
        ((deathGame.update demoHost 0).update demoHost 1).particles = []) ∧
      ∃ s : Game, (deathGame.update demoHost 0).updateFloat 1 = some s ∧
        s.isExplosionAnimation = false ∧ s.particles = [] :=
  ⟨(Game.animation_until_empty demoHost).2.2.1 (deathGame.update demoHost 0) (by decide!)
      (by decide!) [1 / 2, 1 / 2],
   (Game.animation_until_empty demoHost).2.2.2 (deathGame.update demoHost 0) 1 (by decide!)
      (by decide!) (by decide!) (by norm_num)⟩

/-- Counterexample to C15 as stated, in `float` arithmetic, from the state
right after the death sequence of `deathGame` (both flags set, every shared
lifetime equal to 1).  With 60 steps of the `float` nearest to 1/60 the
cumulative `dt` is below 1 after 59 steps and at least 1 after the 60th, yet
after the 60th `update` the shared list is not empty and the flag is still
set: the lifetimes have reached `75 / 2 ^ 28`, not 0.  With steps of the
`float` nearest to `1e-8` the difference `1 - dt` rounds back to 1, so the
animation is still running after any number of updates. -/
theorem Game.animation_outlasts_second :
    (deathGame.update demoHost 0).isGameOver = true ∧
    (deathGame.update demoHost 0).isExplosionAnimation = true ∧
    (∀ p ∈ (deathGame.update demoHost 0).particles, p.lifetime = 1) ∧
    0 ≤ toFloat (1 / 60) ∧
    (List.replicate 59 (toFloat (1 / 60))).sum < 1 ∧
    1 ≤ (List.replicate 60 (toFloat (1 / 60))).sum ∧
    ((deathGame.update demoHost 0).runFloat (List.replicate 60 (toFloat (1 / 60)))).map
      (fun s => s.isExplosionAnimation && !s.particles.isEmpty) = some true ∧
    ((deathGame.update demoHost 0).runFloat (List.replicate 60 (toFloat (1 / 60)))).map
      (fun s => s.particles.head?.map (fun p => p.lifetime)) = some (some (75 / 2 ^ 28)) ∧
    0 < toFloat (1 / 100000000) ∧
    (∀ n : Nat, ∃ s : Game,
      (deathGame.update demoHost 0).runFloat (List.replicate n (toFloat (1 / 100000000))) =
        some s ∧
      s.isExplosionAnimation = true ∧ s.particles ≠ []) := by
  refine ⟨by decide!, by decide!, by decide!, by decide!, by decide!, by decide!, by decide!,
    by decide!, by decide!, ?_⟩
  intro n
  obtain ⟨s, e, x, p, hm, _⟩ := Game.runFloat_stuck n (deathGame.update demoHost 0)
    (toFloat (1 / 100000000)) 1 (by decide!)
    ⟨(deathGame.update demoHost 0).particles.head (by decide!),
      List.head_mem _, by decide!⟩ (by decide!) (by norm_num)
  exact ⟨s, e, x, List.ne_nil_of_mem hm⟩

/-! ## Spawn targets -/

end GameCircle
